import Mathlib

/-!
Verification development for the JSON scoring app (`app.py`) and the CSV
post-processing script (`score_matching.py`).

The Python code is shallowly embedded: JSON values become the inductive
`JValue`, Python dicts become insertion-ordered association lists with
unique keys (`pyDictInsert` / `pyDictOfPairs` reproduce dict-comprehension
semantics: a repeated key keeps its first position and its last value),
floats become rationals (the only float values the program manipulates are
0, 0.5 and 1 together with whatever an uploaded JSON contains, and every
use is an equality test, so rationals are an exact model for the inputs of
interest), and fallible operations return `Option` / `Except`.
-/

/-- JSON-like values as produced by `json.loads`.  Python distinguishes
`int` and `float`, and `str` of the two differs, so both are kept. -/
inductive JValue where
  | null
  | bool (b : Bool)
  | int (n : ℤ)
  | num (q : ℚ)
  | str (s : String)
  | arr (elems : List JValue)
  | obj (fields : List (String × JValue))

/-- First-match lookup in an association list; on lists with unique keys
this is exactly Python `d[k]` / `d.get(k)`. -/
def pyLookup {α : Type} : List (String × α) → String → Option α
  | [], _ => Option.none
  | (k, v) :: rest, key => if k == key then some v else pyLookup rest key

/-- Python dict assignment `d[k] = v`: an existing key keeps its position
and gets the new value, a fresh key is appended. -/
def pyDictInsert {α : Type} (d : List (String × α)) (k : String) (v : α) :
    List (String × α) :=
  if d.any (fun p => p.1 == k) then d.map (fun p => if p.1 == k then (k, v) else p)
  else d ++ [(k, v)]

/-- Python dict built from a sequence of key/value pairs (dict
comprehension): first position wins, last value wins. -/
def pyDictOfPairs {α : Type} (ps : List (String × α)) : List (String × α) :=
  ps.foldl (fun d kv => pyDictInsert d kv.1 kv.2) []

/-- Python `set(xs) == set(ys)` for lists of strings: mutual membership. -/
def pySetEq (xs ys : List String) : Bool :=
  xs.all (fun a => decide (a ∈ ys)) && ys.all (fun b => decide (b ∈ xs))

/-- Numeric value of a run of decimal digits. -/
def natOfDigits (ds : List Char) : ℕ :=
  ds.foldl (fun n c => 10 * n + (c.toNat - 48)) 0

/-- Exponent tail of a Python float literal (after the `e`/`E`). -/
def parseExpTail (sign mant : ℚ) (cs : List Char) : Option ℚ :=
  let (eneg, cs1) :=
    match cs with
    | '-' :: rest => (true, rest)
    | '+' :: rest => (false, rest)
    | _ => (false, cs)
  let ds := cs1.takeWhile Char.isDigit
  let rest := cs1.dropWhile Char.isDigit
  if ds.isEmpty || !rest.isEmpty then Option.none
  else
    let e := natOfDigits ds
    some (if eneg then sign * mant / (10 : ℚ) ^ e else sign * mant * (10 : ℚ) ^ e)

/-- Model of Python `float(s)` on strings: optional surrounding whitespace,
optional sign, decimal digits with an optional point and an optional
scientific exponent.  `inf`/`nan` and digit-group underscores are not
modelled and count as failures. -/
def parsePyFloat (s : String) : Option ℚ :=
  let cs0 := s.trim.data
  if cs0.isEmpty then Option.none
  else
    let (sign, cs1) :=
      match cs0 with
      | '-' :: rest => ((-1 : ℚ), rest)
      | '+' :: rest => ((1 : ℚ), rest)
      | _ => ((1 : ℚ), cs0)
    let ipart := cs1.takeWhile Char.isDigit
    let cs2 := cs1.dropWhile Char.isDigit
    let (fpart, cs3) :=
      match cs2 with
      | '.' :: rest => (rest.takeWhile Char.isDigit, rest.dropWhile Char.isDigit)
      | _ => (([] : List Char), cs2)
    if ipart.isEmpty && fpart.isEmpty then Option.none
    else
      let mant : ℚ := (natOfDigits ipart : ℚ) + (natOfDigits fpart : ℚ) / (10 : ℚ) ^ fpart.length
      match cs3 with
      | [] => some (sign * mant)
      | 'e' :: rest => parseExpTail sign mant rest
      | 'E' :: rest => parseExpTail sign mant rest
      | _ => Option.none

/-- Model of Python `float(v)` on JSON values: numbers pass through,
booleans coerce to 0/1, strings parse as float literals, and
`None`/lists/dicts raise `TypeError` (modelled as failure). -/
def pyFloat : JValue → Option ℚ
  | .bool b => some (if b then 1 else 0)
  | .int n => some (n : ℚ)
  | .num q => some q
  | .str s => parsePyFloat s
  | _ => Option.none

/-- Membership of a float in the allowed score set (`f in {0.0, 0.5, 1.0}`). -/
def scoreValid (q : ℚ) : Bool := q == 0 || q == mkRat 1 2 || q == 1

/-- app.py lines 41-46, `_is_valid_score`: `float(v)` succeeds and lands in
the allowed set; any exception yields `False`. -/
def _is_valid_score (v : JValue) : Bool :=
  match pyFloat v with
  | some f => scoreValid f
  | none => false

/-- Rendering of a rational as Python renders a float.  No property below
depends on the concrete spelling, only on `pyStr` being a function. -/
def floatRepr (q : ℚ) : String := toString q

/-- Python `str(x)` on scalar JSON values (the only shapes the source
applies it to). -/
def pyStr : JValue → String
  | .str s => s
  | .int n => toString n
  | .num q => floatRepr q
  | .bool b => if b then "True" else "False"
  | .null => "None"
  | .arr _ => "<list>"
  | .obj _ => "<dict>"

/-- Python `isinstance(x, (str, int, float, bool))`. -/
def isScalar : JValue → Bool
  | .str _ => true
  | .int _ => true
  | .num _ => true
  | .bool _ => true
  | _ => false

/-- Result triple of `_normalize_raw`: `(ids, prefilled_scores, payload_map)`. -/
structure NormResult where
  ids : List String
  prefilled : List (String × ℚ)
  payloads : List (String × JValue)

/-- app.py line 57: `{k: float(v) for k, v in raw["scores"].items() if _is_valid_score(v)}`. -/
def prefilledOf (sc : List (String × JValue)) : List (String × ℚ) :=
  pyDictOfPairs ((sc.filter (fun kv => _is_valid_score kv.2)).map
    (fun kv => (kv.1, (pyFloat kv.2).getD 0)))

/-- app.py lines 62-64: ids fall back to the prefilled keys and payloads
degrade to the id string itself. -/
def exportCaseFallback (prefilled : List (String × ℚ)) : NormResult :=
  let ids := prefilled.map Prod.fst
  ⟨ids, prefilled, pyDictOfPairs (ids.map (fun k => (k, JValue.str k)))⟩

/-- app.py lines 58-65: choose ids and payloads from a usable
`items_payloads` dict, else fall back. -/
def exportCaseAssemble (prefilled : List (String × ℚ)) (itemsPayloads : Option JValue) :
    NormResult :=
  match itemsPayloads with
  | some (.obj ip) =>
      if ip.length > 0 then ⟨ip.map Prod.fst, prefilled, ip⟩
      else exportCaseFallback prefilled
  | _ => exportCaseFallback prefilled

/-- app.py lines 56-65, case 1 (prior export). -/
def exportCaseResult (sc : List (String × JValue)) (itemsPayloads : Option JValue) :
    NormResult :=
  exportCaseAssemble (prefilledOf sc) itemsPayloads

/-- app.py lines 68-71, case 2 (dict input): keys are ids, `None` values
degrade to the key itself. -/
def dictCase (fields : List (String × JValue)) : NormResult :=
  let ids := fields.map Prod.fst
  ⟨ids, [],
    pyDictOfPairs (ids.map (fun k =>
      (k, match (pyLookup fields k).getD .null with
          | .null => JValue.str k
          | v => v)))⟩

/-- app.py lines 74-82, case 3 (list input). -/
def listCase (xs : List JValue) : NormResult :=
  if xs.all isScalar then
    ⟨xs.map pyStr, [], pyDictOfPairs (xs.map (fun x => (pyStr x, x)))⟩
  else
    ⟨(List.range xs.length).map (fun i => "item_" ++ toString i), [],
      pyDictOfPairs ((List.range xs.length).map
        (fun i => ("item_" ++ toString i, (xs.get? i).getD .null)))⟩

/-- app.py lines 53-85, `_normalize_raw`: the four cases in priority order. -/
def _normalize_raw (raw : JValue) : NormResult :=
  match raw with
  | .obj fields =>
      match pyLookup fields "scores" with
      | some (.obj sc) => exportCaseResult sc (pyLookup fields "items_payloads")
      | _ => dictCase fields
  | .arr xs => listCase xs
  | _ => ⟨["item_0"], [], [("item_0", raw)]⟩

/-- Exception-aware rendition of the prefilled-score comprehension: the
guard `_is_valid_score` runs first, then `float(v)` is evaluated and could
in principle raise. -/
def prefilledOfE (sc : List (String × JValue)) : Except String (List (String × ℚ)) := do
  let ps ← (sc.filter (fun kv => _is_valid_score kv.2)).mapM
      (fun (kv : String × JValue) =>
        match pyFloat kv.2 with
        | some q => Except.ok (kv.1, q)
        | none => Except.error "ValueError: float")
  pure (pyDictOfPairs ps)

/-- Exception-aware rendition of `_normalize_raw`: every operation of the
source that can raise is threaded through `Except`; everything else is
isinstance dispatch, key listing and string formatting, which are total. -/
def normalizeRawE (raw : JValue) : Except String NormResult :=
  match raw with
  | .obj fields =>
      match pyLookup fields "scores" with
      | some (.obj sc) =>
          (prefilledOfE sc).map
            (fun pf => exportCaseAssemble pf (pyLookup fields "items_payloads"))
      | _ => Except.ok (dictCase fields)
  | .arr xs => Except.ok (listCase xs)
  | _ => Except.ok ⟨["item_0"], [], [("item_0", raw)]⟩

/-- All-strings view of a JSON array.  A non-string element of a stored
order can never satisfy `set(order) == set(ids)` against string ids (and an
unhashable one raises, which line 94 catches), so in either reading the
restore fails exactly as in the source. -/
def asStringList : List JValue → Option (List String)
  | [] => some []
  | .str s :: rest => (asStringList rest).map (fun os => s :: os)
  | _ => Option.none

/-- The `raw["meta"].get("order")` access path of lines 90-91. -/
def metaOrderField : JValue → Option JValue
  | .obj fields =>
      match pyLookup fields "meta" with
      | some (.obj mfields) => pyLookup mfields "order"
      | _ => Option.none
  | _ => Option.none

/-- app.py lines 88-96, `_restore_order_from_meta`: accept `raw["meta"]["order"]`
iff it is a list with `set(order) == set(ids)` and `len(order) == len(ids)`. -/
def _restore_order_from_meta (raw : JValue) (ids : List String) : Option (List String) :=
  match metaOrderField raw with
  | some (.arr xs) =>
      match asStringList xs with
      | some os =>
          if pySetEq os ids && (os.length == ids.length) then some os
          else Option.none
      | none => Option.none
  | _ => Option.none

/-- app.py lines 200-204, `_make_base_order`: restored meta order, else a
random permutation.  `random.sample(ids, k=len(ids))` is modelled by the
caller-supplied `shuffle`, constrained to produce permutations where it
matters. -/
def _make_base_order (raw : JValue) (idsAll : List String)
    (shuffle : List String → List String) : List String :=
  match _restore_order_from_meta raw idsAll with
  | some o => o
  | none => shuffle idsAll

/-- app.py lines 206-207: keep the cached order when its id set matches the
live ids, regenerate otherwise (or when absent). -/
def maintainBaseOrder (prev : Option (List String)) (raw : JValue)
    (idsAll : List String) (shuffle : List String → List String) : List String :=
  match prev with
  | some bo => if pySetEq bo idsAll then bo else _make_base_order raw idsAll shuffle
  | none => _make_base_order raw idsAll shuffle

/-- Index of the first list element whose key is absent from `scores`. -/
def firstNone (scores : List (String × ℚ)) : List String → Option ℕ
  | [] => Option.none
  | k :: rest =>
      if (pyLookup scores k).isNone then some 0
      else (firstNone scores rest).map (fun n => n + 1)

/-- app.py lines 117-121, `_first_unscored`: the loop returns the first
index whose id has no entry, and falls through to `0` otherwise. -/
def _first_unscored (order : List String) (scores : List (String × ℚ)) : ℕ :=
  (firstNone scores order).getD 0

/-- app.py line 230: membership in the `completed_keys` set comprehension. -/
def isCompleted (scores : List (String × ℚ)) (idsAll : List String) (k : String) : Bool :=
  match pyLookup scores k with
  | some v => decide (k ∈ idsAll) && scoreValid v
  | none => false

/-- app.py lines 232-235, `_is_visible`. -/
def isVisible (hideCompleted : Bool) (completed : String → Bool)
    (sticky : Option String) (itemId : String) : Bool :=
  if !hideCompleted then true
  else !completed itemId || (sticky == some itemId)

/-- Visibility of the item at a position (out-of-range is never queried by
the reachable code paths). -/
def visAt (vis : String → Bool) (base : List String) (j : ℕ) : Bool :=
  match base.get? j with
  | some k => vis k
  | none => false

/-- Index of the first visible element, if any. -/
def firstVisibleAux (vis : String → Bool) : List String → Option ℕ
  | [] => Option.none
  | k :: rest =>
      if vis k then some 0
      else (firstVisibleAux vis rest).map (fun n => n + 1)

/-- app.py lines 251-256, `_first_visible_index`. -/
def _first_visible_index (vis : String → Bool) (base : List String) : ℕ :=
  (firstVisibleAux vis base).getD 0

/-- app.py lines 237-242, `_next_visible_index`: scan `i+1 .. len-1`. -/
def _next_visible_index (vis : String → Bool) (base : List String) (i : ℕ) : ℕ :=
  match firstVisibleAux vis (base.drop (i + 1)) with
  | some j => i + 1 + j
  | none => i

/-- Scan positions `i-1` down to `0` for a visible element. -/
def prevVisibleAux (vis : String → Bool) (base : List String) : ℕ → Option ℕ
  | 0 => Option.none
  | j + 1 => if visAt vis base j then some j else prevVisibleAux vis base j

/-- app.py lines 244-249, `_prev_visible_index`. -/
def _prev_visible_index (vis : String → Bool) (base : List String) (i : ℕ) : ℕ :=
  (prevVisibleAux vis base i).getD i

/-- app.py line 375: `{k: float(v) for k, v in scores.items() if k in ids_all}`. -/
def exportScores (scores : List (String × ℚ)) (idsAll : List String) :
    List (String × ℚ) :=
  pyDictOfPairs (scores.filter (fun kv => decide (kv.1 ∈ idsAll)))

/-- app.py lines 374-383: the export document.  `generated_at` is the
timestamp string. -/
def exportDoc (scores : List (String × ℚ)) (idsAll : List String)
    (baseOrder : List String) (payloadsAll : List (String × JValue))
    (generatedAt : String) : JValue :=
  .obj [("scores", .obj ((exportScores scores idsAll).map (fun kv => (kv.1, JValue.num kv.2)))),
        ("meta", .obj [("generated_at", .str generatedAt),
                       ("count", .int (idsAll.length : ℤ)),
                       ("valid_scores", .arr [.int 0, .num (mkRat 1 2), .int 1]),
                       ("order", .arr (baseOrder.map JValue.str))]),
        ("items_payloads", .obj payloadsAll)]

/-- Streamlit `st.session_state` entries the script reads or writes, plus
the previous run's `completed_keys` snapshot (callbacks defined during a
run close over that run's `completed_keys` value, so it is part of the
state the next interaction observes). -/
structure Session where
  rawData : Option JValue
  source : Option String
  uploadedHash : Option String
  scores : List (String × ℚ)
  resumeNow : Bool
  baseOrder : Option (List String)
  stickyId : Option String
  hideCompleted : Bool
  page : Option ℕ
  completedSnap : List String

/-- Fresh session: every key absent; the first run initialises
`hide_completed` to `True`, `scores` to `{}`, `sticky_id` to `None`
(app.py lines 191, 210-214), which the defaults here pre-apply. -/
def initSession : Session :=
  ⟨Option.none, Option.none, Option.none, [], false, Option.none, Option.none,
   true, Option.none, []⟩

/-- Per-rerun environment.  `inputFile`: `none` models a missing
`input_texts.json`, `some none` an unparsable one, `some (some j)` its
contents.  `upload`: the file currently sitting in the uploader widget, as
its raw text (standing in for the bytes, whose MD5 the code compares; the
text itself is used as the collision-free fingerprint) together with its
JSON parse result (`none` when `json.loads` raises). -/
structure Env where
  inputFile : Option (Option JValue)
  upload : Option (String × Option JValue)

/-- Operator interactions that trigger a rerun: a plain rerun (e.g. a file
(re)upload, which has no callback), the score radio, the two navigation
buttons, and the hide-completed checkbox. -/
inductive Event where
  | idle
  | setScore (v : ℚ)
  | nextPage
  | prevPage
  | toggleHide

/-- Constraint the UI imposes on an event: the score radio only offers
`[0.0, 0.5, 1.0]` (app.py line 330). -/
def EventOK : Event → Prop
  | .setScore v => v = 0 ∨ v = mkRat 1 2 ∨ v = 1
  | _ => True

/-- Visibility as callbacks see it: live `hide_completed` and `sticky_id`,
but the `completed_keys` snapshot of the run that defined them. -/
def cbVis (s : Session) (k : String) : Bool :=
  isVisible s.hideCompleted (fun x => decide (x ∈ s.completedSnap)) s.stickyId k

/-- app.py lines 347-349, `_next_page`. -/
def cbNextPage (s : Session) : Session :=
  let s1 := { s with stickyId := Option.none }
  { s1 with page := some (_next_visible_index (cbVis s1) (s1.baseOrder.getD []) (s1.page.getD 0)) }

/-- app.py lines 351-353, `_prev_page`. -/
def cbPrevPage (s : Session) : Session :=
  let s1 := { s with stickyId := Option.none }
  { s1 with page := some (_prev_visible_index (cbVis s1) (s1.baseOrder.getD []) (s1.page.getD 0)) }

/-- app.py lines 216-220, `_toggle_hide_completed`, together with the
checkbox flipping its keyed state. -/
def cbToggleHide (s : Session) : Session :=
  { s with hideCompleted := !s.hideCompleted, page := some 0,
           stickyId := Option.none, resumeNow := true }

/-- app.py lines 317-327, `_set_score`: record the value for the rendered
item, then either advance past it (hide-completed mode) or pin it sticky. -/
def cbSetScore (s : Session) (v : ℚ) : Session :=
  let itemId := ((s.baseOrder.getD []).get? (s.page.getD 0)).getD ""
  let s1 := { s with scores := pyDictInsert s.scores itemId v }
  if s1.hideCompleted then
    let s2 := { s1 with stickyId := Option.none }
    { s2 with page := some (_next_visible_index (cbVis s2) (s2.baseOrder.getD []) (s2.page.getD 0)) }
  else { s1 with stickyId := some itemId }

/-- Dispatch the widget callback that runs before the script body. -/
def applyEvent (s : Session) : Event → Session
  | .idle => s
  | .setScore v => cbSetScore s v
  | .nextPage => cbNextPage s
  | .prevPage => cbPrevPage s
  | .toggleHide => cbToggleHide s

/-- app.py lines 130-143: load `input_texts.json` only when the session has
no raw data; a missing or unparsable file leaves the state untouched. -/
def phaseLoad (env : Env) (s : Session) : Session :=
  if s.rawData.isNone then
    match env.inputFile with
    | some (some j) => { s with rawData := some j, source := some "input_texts.json" }
    | _ => s
  else s

/-- app.py lines 150-168: process the uploader slot.  A content hash equal
to the stored one is skipped outright; a fresh hash parses the bytes and,
on success, replaces the raw data, resets the scores and schedules a
resume jump (a parse failure is caught before any assignment). -/
def processUpload (env : Env) (s : Session) : Session :=
  match env.upload with
  | some (c, pj) =>
      if s.uploadedHash == some c then s
      else
        match pj with
        | some raw =>
            { s with uploadedHash := some c, rawData := some raw, scores := [],
                     resumeNow := true, source := some "uploaded progress" }
        | none => s
  | none => s

/-- app.py lines 173-178: the normalization triple of the current session
raw data (empty when no data is loaded). -/
def normOf (s : Session) : NormResult :=
  match s.rawData with
  | some r => _normalize_raw r
  | none => ⟨[], [], []⟩

/-- app.py line 194: merge the prefilled judgments into the score store. -/
def mergePrefilled (s : Session) (prefilled : List (String × ℚ)) : Session :=
  { s with scores := prefilled.foldl (fun d kv => pyDictInsert d kv.1 kv.2) s.scores }

/-- app.py lines 259-264: first-run or post-resume cursor seeding. -/
def pageInit (s : Session) (bo : List String) (vis : String → Bool) : Session :=
  if s.page.isNone || s.resumeNow then
    { s with page := some (if s.hideCompleted then _first_visible_index vis bo
                           else _first_unscored bo s.scores),
             resumeNow := false }
  else s

/-- app.py lines 299-306 and 343-344: clamp the cursor to a visible item
and record the default 0.0 for a not-yet-scored current item (the radio
default; the guard makes the written value `float(0.0)`). -/
def clampAndFill (s : Session) (bo : List String) (vis : String → Bool) : Session :=
  let idx := s.page.getD 0
  let idx2 := if visAt vis bo idx then idx else _first_visible_index vis bo
  let s1 := { s with page := some idx2 }
  let currentId := (bo.get? idx2).getD ""
  if (pyLookup s1.scores currentId).isNone then
    { s1 with scores := pyDictInsert s1.scores currentId 0 }
  else s1

/-- app.py lines 173-344 after the load/upload phases: normalize, stop on
an empty item set, merge prefills, maintain the base order, snapshot the
completed set, seed the cursor, stop on the all-done screen, clamp and
default-fill. -/
def runMain (s : Session) (shuffle : List String → List String) : Session :=
  let norm := normOf s
  if norm.ids.isEmpty then s
  else
    let s1 := mergePrefilled s norm.prefilled
    let newOrder := maintainBaseOrder s1.baseOrder (s1.rawData.getD .null) norm.ids shuffle
    let s2 := { s1 with baseOrder := some newOrder }
    let bo := s2.baseOrder.getD []
    let snap := (s2.scores.map Prod.fst).filter (fun k => isCompleted s2.scores norm.ids k)
    let s3 := { s2 with completedSnap := snap }
    let vis := fun k => isVisible s3.hideCompleted (fun x => decide (x ∈ snap)) s3.stickyId k
    let s4 := pageInit s3 bo vis
    if !(bo.any vis) then s4
    else clampAndFill s4 bo vis

/-- One full rerun of the script body. -/
def runScript (s : Session) (env : Env) (shuffle : List String → List String) : Session :=
  runMain (processUpload env (phaseLoad env s)) shuffle

/-- One operator interaction: the widget callback, then the rerun. -/
def step (s : Session) (env : Env) (ev : Event) (shuffle : List String → List String) :
    Session :=
  runScript (applyEvent s ev) env shuffle

/-- States the app can actually be in: the fresh session, closed under
interactions whose shuffle really permutes (`random.sample`) and whose
event the UI can produce. -/
inductive Reachable : Session → Prop where
  | init : Reachable initSession
  | next (s : Session) (env : Env) (ev : Event) (shuffle : List String → List String)
      (hs : Reachable s) (hshuffle : ∀ l, (shuffle l).Perm l) (hev : EventOK ev) :
      Reachable (step s env ev shuffle)

/-- Item ids of the current session raw data (app.py lines 173-178). -/
def sessionIds (s : Session) : List String :=
  (normOf s).ids

/-- One CSV data row written by score_matching.py (`None` scores render as
an empty field under `csv.DictWriter`). -/
structure SmRow where
  item : JValue
  id : JValue
  content : JValue
  score : Option JValue

/-- Python `d.get(k, default)` with a string key: raises `AttributeError`
when the receiver is not a dict. -/
def pyGetD (d : JValue) (k : String) (dflt : JValue) : Except String JValue :=
  match d with
  | .obj fields => .ok ((pyLookup fields k).getD dflt)
  | _ => .error "AttributeError: get"

/-- Python `d.get(k)` with an arbitrary key against a string-keyed dict:
non-dict receivers raise `AttributeError`, unhashable keys raise
`TypeError`, hashable non-string keys miss. -/
def pyGetDJ (d : JValue) (k : JValue) : Except String (Option JValue) :=
  match d with
  | .obj fields =>
      match k with
      | .str s => .ok (pyLookup fields s)
      | .arr _ => .error "TypeError: unhashable"
      | .obj _ => .error "TypeError: unhashable"
      | _ => .ok Option.none
  | _ => .error "AttributeError: get"

/-- score_matching.py line 21: `order if isinstance(order, list) else
list(scores.keys())`. -/
def smItems (scores order : JValue) : Except String (List JValue) :=
  match order with
  | .arr xs => .ok xs
  | _ =>
      match scores with
      | .obj sc => .ok (sc.map (fun kv => JValue.str kv.1))
      | _ => .error "AttributeError: keys"

/-- score_matching.py lines 25-31: one loop iteration.  `payload.get`
raises when the payload is not a mapping. -/
def smRowOf (scores payloads : JValue) (itemKey : JValue) : Except String SmRow := do
  let pOpt ← pyGetDJ payloads itemKey
  let payload := pOpt.getD (.obj [])
  let idv ← pyGetD payload "id" (.str "")
  let contentv ← pyGetD payload "content" (.str "")
  let scoreOpt ← pyGetDJ scores itemKey
  pure ⟨itemKey, idv, contentv, scoreOpt⟩

/-- score_matching.py lines 23-31: the row-building loop, appending one
row per item key in order. -/
def smRows (scores payloads : JValue) : List JValue → Except String (List SmRow)
  | [] => .ok []
  | x :: rest => do
      let row ← smRowOf scores payloads x
      let rows ← smRows scores payloads rest
      .ok (row :: rows)

/-- Keys Python can hash: everything but lists and dicts. -/
def smKeyHashable : JValue → Bool
  | .arr _ => false
  | .obj _ => false
  | _ => true

/-- The score field `run` emits for an item key: the scores-dict entry for
a string key, absent for any other hashable key. -/
def smScoreOf (sc : List (String × JValue)) : JValue → Option JValue
  | .str s2 => pyLookup sc s2
  | _ => Option.none

/-- score_matching.py lines 10-41, `run`, up to the CSV serialization: the
list of data rows, or the exception the script dies with. -/
def smRun (data : JValue) : Except String (List SmRow) :=
  match pyGetD data "scores" (.obj []) with
  | .error e => .error e
  | .ok scores =>
    match pyGetD data "items_payloads" (.obj []) with
    | .error e => .error e
    | .ok payloads =>
      match pyGetD data "meta" (.obj []) with
      | .error e => .error e
      | .ok meta =>
        match pyGetD meta "order" .null with
        | .error e => .error e
        | .ok order =>
          match smItems scores order with
          | .error e => .error e
          | .ok items => smRows scores payloads items

/-- Identity shuffle; `random.sample` is allowed to return it, since it is
a permutation. -/
def idShuffle : List String → List String := fun l => l

/-- Environment: `input_texts.json` holds the two-element list `["a","b"]`
and no file sits in the uploader. -/
def envInputAB : Env := ⟨some (some (.arr [.str "a", .str "b"])), Option.none⟩

/-- Session after a first run over `envInputAB`. -/
def stateAB : Session := step initSession envInputAB .idle idShuffle

/-- Environment: `input_texts.json` holds `["a","a"]` (duplicate scalars). -/
def envInputAA : Env := ⟨some (some (.arr [.str "a", .str "a"])), Option.none⟩

/-- Session after a first run over `envInputAA`: its id list is
`["a","a"]` with a duplicate. -/
def stateAA : Session := step initSession envInputAA .idle idShuffle

/-- Environment: the uploader holds a progress file parsing to
`["a","a","b"]`. -/
def envUploadAAB : Env := ⟨Option.none, some ("u", some (.arr [.str "a", .str "a", .str "b"]))⟩

/-- Session after loading `["a","b"]` and then uploading `["a","a","b"]`:
the cached order `["a","b"]` survives because its id set still matches. -/
def stateABthenAAB : Session := step stateAB envUploadAAB .idle idShuffle

/-- Environment: the uploader holds a progress file parsing to `["a","b"]`. -/
def envUploadAB : Env := ⟨Option.none, some ("v", some (.arr [.str "a", .str "b"]))⟩

/-- Session right after processing the upload of `envUploadAB`. -/
def stateUploadedAB : Session := step initSession envUploadAB .idle idShuffle

/-- Rerun of `stateUploadedAB` with the same file still in the uploader:
the hash matches, so the upload block is skipped. -/
def stateUploadedABAgain : Session := step stateUploadedAB envUploadAB .idle idShuffle

/-! Lemmas about the Python-dict model. -/

theorem pyLookup_map_keep {α : Type} (d : List (String × α)) (k : String) (v : α)
    (key : String) (hne : (k == key) = false) :
    pyLookup (d.map (fun p => if p.1 == k then (k, v) else p)) key = pyLookup d key := by
  induction d with
  | nil => rfl
  | cons p rest ih =>
      obtain ⟨k0, v0⟩ := p
      simp only [List.map_cons]
      by_cases h0 : (k0 == k) = true
      · rw [if_pos h0]
        have h0e : k0 = k := by simpa using h0
        subst h0e
        simp only [pyLookup]
        rw [if_neg (by simp [hne]), if_neg (by simp [hne]), ih]
      · rw [if_neg h0]
        simp only [pyLookup]
        rw [ih]

theorem pyDictInsert_cons_of_ne {α : Type} (k0 : String) (v0 : α) (rest : List (String × α))
    (k : String) (v : α) (h0 : (k0 == k) = false) :
    pyDictInsert ((k0, v0) :: rest) k v = (k0, v0) :: pyDictInsert rest k v := by
  unfold pyDictInsert
  simp only [List.any_cons, h0, Bool.false_or]
  cases hr : rest.any (fun p => p.1 == k)
  · simp
  · have h0p : ¬ k0 = k := by simpa using h0
    simp [h0p]

theorem pyLookup_pyDictInsert {α : Type} (d : List (String × α)) (k : String) (v : α)
    (key : String) :
    pyLookup (pyDictInsert d k v) key = if k == key then some v else pyLookup d key := by
  induction d with
  | nil => rfl
  | cons p rest ih =>
      obtain ⟨k0, v0⟩ := p
      by_cases h0 : (k0 == k) = true
      · have e0 : k0 = k := by simpa using h0
        subst e0
        rw [show pyDictInsert ((k0, v0) :: rest) k0 v =
              (k0, v) :: rest.map (fun p => if p.1 == k0 then (k0, v) else p) by
            unfold pyDictInsert
            rw [if_pos (by simp [List.any_cons]), List.map_cons, if_pos (by simp)]]
        simp only [pyLookup]
        by_cases hk : (k0 == key) = true
        · rw [if_pos hk, if_pos hk]
        · rw [if_neg hk, if_neg hk, if_neg hk,
            pyLookup_map_keep rest k0 v key (Bool.eq_false_iff.mpr hk)]
      · have h0f : (k0 == k) = false := Bool.eq_false_iff.mpr h0
        rw [pyDictInsert_cons_of_ne _ _ _ _ _ h0f]
        simp only [pyLookup]
        by_cases hk0 : (k0 == key) = true
        · have e0 : k0 = key := by simpa using hk0
          subst e0
          have hke : ¬ (k == k0) = true := by
            intro hc
            have : k = k0 := by simpa using hc
            subst this
            simp at h0
          rw [if_pos hk0, if_neg hke, if_pos hk0]
        · rw [if_neg hk0, ih, if_neg hk0]

theorem mem_pyDictInsert {α : Type} {d : List (String × α)} {k : String} {v : α}
    {kv : String × α} (h : kv ∈ pyDictInsert d k v) : kv ∈ d ∨ kv = (k, v) := by
  unfold pyDictInsert at h
  by_cases hp : (d.any fun p => p.1 == k) = true
  · rw [if_pos hp] at h
    rcases List.mem_map.mp h with ⟨p, hpmem, hpe⟩
    by_cases hk : (p.1 == k) = true
    · rw [if_pos hk] at hpe
      exact Or.inr hpe.symm
    · rw [if_neg hk] at hpe
      exact Or.inl (hpe ▸ hpmem)
  · rw [if_neg hp] at h
    rcases List.mem_append.mp h with h1 | h1
    · exact Or.inl h1
    · exact Or.inr (List.mem_singleton.mp h1)

theorem any_key_iff {α : Type} (d : List (String × α)) (k : String) :
    (d.any fun p => p.1 == k) = true ↔ k ∈ d.map Prod.fst := by
  rw [List.any_eq_true]
  constructor
  · rintro ⟨p, hp, he⟩
    exact List.mem_map.mpr ⟨p, hp, by simpa using he⟩
  · intro h
    rcases List.mem_map.mp h with ⟨p, hp, he⟩
    exact ⟨p, hp, by simp [he]⟩

theorem keys_pyDictInsert {α : Type} (d : List (String × α)) (k : String) (v : α) :
    (pyDictInsert d k v).map Prod.fst =
      if d.any (fun p => p.1 == k) then d.map Prod.fst else d.map Prod.fst ++ [k] := by
  unfold pyDictInsert
  by_cases hp : (d.any fun p => p.1 == k) = true
  · rw [if_pos hp, if_pos hp, List.map_map]
    apply List.map_congr_left
    intro p _
    by_cases hk : (p.1 == k) = true
    · have : p.1 = k := by simpa using hk
      simp [Function.comp, hk, this]
    · simp [Function.comp, hk]
  · rw [if_neg hp, if_neg hp]
    simp

theorem key_mem_pyDictInsert_iff {α : Type} (d : List (String × α)) (k : String) (v : α)
    (key : String) :
    key ∈ (pyDictInsert d k v).map Prod.fst ↔ key ∈ d.map Prod.fst ∨ key = k := by
  rw [keys_pyDictInsert]
  by_cases hp : (d.any fun p => p.1 == k) = true
  · rw [if_pos hp]
    constructor
    · exact Or.inl
    · rintro (h | rfl)
      · exact h
      · exact (any_key_iff d key).mp hp
  · rw [if_neg hp]
    simp

theorem nodupkeys_pyDictInsert {α : Type} {d : List (String × α)} (k : String) (v : α)
    (h : (d.map Prod.fst).Nodup) : ((pyDictInsert d k v).map Prod.fst).Nodup := by
  rw [keys_pyDictInsert]
  by_cases hp : (d.any fun p => p.1 == k) = true
  · rwa [if_pos hp]
  · rw [if_neg hp]
    have hk : k ∉ d.map Prod.fst := fun hmem => hp ((any_key_iff d k).mpr hmem)
    refine List.Nodup.append h (List.nodup_singleton k) ?_
    intro a ha hak
    rw [List.mem_singleton] at hak
    exact hk (hak ▸ ha)

theorem mem_foldl_pyDictInsert {α : Type} (ps : List (String × α)) :
    ∀ (acc : List (String × α)) (kv : String × α),
      kv ∈ ps.foldl (fun d p => pyDictInsert d p.1 p.2) acc → kv ∈ acc ∨ kv ∈ ps := by
  induction ps with
  | nil => intro acc kv h; exact Or.inl h
  | cons p rest ih =>
      intro acc kv h
      simp only [List.foldl_cons] at h
      rcases ih _ _ h with h1 | h1
      · rcases mem_pyDictInsert h1 with h2 | h2
        · exact Or.inl h2
        · right
          rw [h2]
          exact List.mem_cons_self _ _
      · exact Or.inr (List.mem_cons_of_mem _ h1)

theorem mem_pyDictOfPairs {α : Type} {ps : List (String × α)} {kv : String × α}
    (h : kv ∈ pyDictOfPairs ps) : kv ∈ ps := by
  rcases mem_foldl_pyDictInsert ps [] kv h with h1 | h1
  · exact absurd h1 (List.not_mem_nil kv)
  · exact h1

theorem nodupkeys_foldl_pyDictInsert {α : Type} (ps : List (String × α)) :
    ∀ (acc : List (String × α)), (acc.map Prod.fst).Nodup →
      ((ps.foldl (fun d p => pyDictInsert d p.1 p.2) acc).map Prod.fst).Nodup := by
  induction ps with
  | nil => intro acc h; exact h
  | cons p rest ih =>
      intro acc h
      simp only [List.foldl_cons]
      exact ih _ (nodupkeys_pyDictInsert p.1 p.2 h)

theorem nodupkeys_pyDictOfPairs {α : Type} (ps : List (String × α)) :
    ((pyDictOfPairs ps).map Prod.fst).Nodup :=
  nodupkeys_foldl_pyDictInsert ps [] List.nodup_nil

theorem key_mem_foldl_iff {α : Type} (ps : List (String × α)) :
    ∀ (acc : List (String × α)) (key : String),
      key ∈ (ps.foldl (fun d p => pyDictInsert d p.1 p.2) acc).map Prod.fst ↔
        key ∈ acc.map Prod.fst ∨ key ∈ ps.map Prod.fst := by
  induction ps with
  | nil => intro acc key; simp
  | cons p rest ih =>
      intro acc key
      simp only [List.foldl_cons, List.map_cons, List.mem_cons]
      rw [ih, key_mem_pyDictInsert_iff]
      constructor
      · rintro ((h | h) | h)
        · exact Or.inl h
        · exact Or.inr (Or.inl h)
        · exact Or.inr (Or.inr h)
      · rintro (h | h | h)
        · exact Or.inl (Or.inl h)
        · exact Or.inl (Or.inr h)
        · exact Or.inr h

theorem key_mem_pyDictOfPairs_iff {α : Type} (ps : List (String × α)) (key : String) :
    key ∈ (pyDictOfPairs ps).map Prod.fst ↔ key ∈ ps.map Prod.fst := by
  rw [pyDictOfPairs, key_mem_foldl_iff]
  simp

theorem pyLookup_foldl_pyDictInsert {α : Type} (ps : List (String × α)) :
    ∀ (acc : List (String × α)) (key : String),
      pyLookup (ps.foldl (fun d p => pyDictInsert d p.1 p.2) acc) key =
        match ps.reverse.find? (fun kv => kv.1 == key) with
        | some kv => some kv.2
        | none => pyLookup acc key := by
  induction ps with
  | nil => intro acc key; rfl
  | cons p rest ih =>
      intro acc key
      simp only [List.foldl_cons, List.reverse_cons]
      rw [ih, List.find?_append]
      cases hf : rest.reverse.find? (fun kv => kv.1 == key)
      · simp only [Option.none_orElse]
        rw [pyLookup_pyDictInsert]
        by_cases hk : (p.1 == key) = true
        · simp [List.find?, hk]
        · simp [List.find?, hk, Bool.eq_false_iff.mpr hk]
      · simp [hf]

theorem pyLookup_pyDictOfPairs {α : Type} (ps : List (String × α)) (key : String) :
    pyLookup (pyDictOfPairs ps) key =
      match ps.reverse.find? (fun kv => kv.1 == key) with
      | some kv => some kv.2
      | none => Option.none := by
  rw [pyDictOfPairs, pyLookup_foldl_pyDictInsert]
  cases ps.reverse.find? (fun kv => kv.1 == key) <;> rfl

theorem foldl_pyDictInsert_eq_append {α : Type} (ps : List (String × α)) :
    ∀ (acc : List (String × α)), (ps.map Prod.fst).Nodup →
      (∀ k2, k2 ∈ ps.map Prod.fst → k2 ∉ acc.map Prod.fst) →
      ps.foldl (fun d p => pyDictInsert d p.1 p.2) acc = acc ++ ps := by
  induction ps with
  | nil => intro acc _ _; simp
  | cons p rest ih =>
      intro acc hnd hdisj
      obtain ⟨k1, v1⟩ := p
      have hnd1 : (k1 :: rest.map Prod.fst).Nodup := by simpa using hnd
      have hnotacc : k1 ∉ acc.map Prod.fst := hdisj k1 (by simp)
      simp only [List.foldl_cons]
      have hins : pyDictInsert acc k1 v1 = acc ++ [(k1, v1)] := by
        unfold pyDictInsert
        rw [if_neg (fun hc => hnotacc ((any_key_iff acc k1).mp hc))]
      have hdisj2 : ∀ k2, k2 ∈ rest.map Prod.fst →
          k2 ∉ (acc ++ [(k1, v1)]).map Prod.fst := by
        intro k2 hk2 hmem
        rw [List.map_append, List.mem_append] at hmem
        rcases hmem with hm | hm
        · exact hdisj k2 (by simp [hk2]) hm
        · have he : k2 = k1 := by simpa using hm
          subst he
          exact (List.nodup_cons.mp hnd1).1 hk2
      rw [hins, ih (acc ++ [(k1, v1)]) hnd1.of_cons hdisj2]
      simp

theorem pyDictOfPairs_eq_self {α : Type} {ps : List (String × α)}
    (h : (ps.map Prod.fst).Nodup) : pyDictOfPairs ps = ps := by
  rw [pyDictOfPairs, foldl_pyDictInsert_eq_append ps [] h (by simp)]
  simp

/-! Lemmas about the Python set-equality test. -/

theorem pySetEq_iff_mem (xs ys : List String) :
    pySetEq xs ys = true ↔ ∀ a : String, a ∈ xs ↔ a ∈ ys := by
  unfold pySetEq
  rw [Bool.and_eq_true, List.all_eq_true, List.all_eq_true]
  constructor
  · rintro ⟨h1, h2⟩ a
    constructor
    · intro ha; simpa using h1 a ha
    · intro ha; simpa using h2 a ha
  · intro h
    exact ⟨fun a ha => by simpa using (h a).mp ha, fun b hb => by simpa using (h b).mpr hb⟩

theorem pySetEq_toFinset (xs ys : List String) :
    pySetEq xs ys = true ↔ xs.toFinset = ys.toFinset := by
  rw [pySetEq_iff_mem]
  constructor
  · intro h
    ext a
    simpa [List.mem_toFinset] using h a
  · intro h a
    constructor <;> intro ha
    · have h1 := List.mem_toFinset.mpr ha
      rw [h] at h1
      exact List.mem_toFinset.mp h1
    · have h1 := List.mem_toFinset.mpr ha
      rw [← h] at h1
      exact List.mem_toFinset.mp h1

theorem pySetEq_of_perm {xs ys : List String} (h : xs.Perm ys) : pySetEq xs ys = true :=
  (pySetEq_iff_mem xs ys).mpr (fun _ => h.mem_iff)

theorem pySetEq_trans {xs ys zs : List String} (h1 : pySetEq xs ys = true)
    (h2 : pySetEq ys zs = true) : pySetEq xs zs = true :=
  (pySetEq_iff_mem xs zs).mpr
    (fun a => ((pySetEq_iff_mem xs ys).mp h1 a).trans ((pySetEq_iff_mem ys zs).mp h2 a))

theorem length_eq_of_pySetEq_nodup {xs ys : List String} (h : pySetEq xs ys = true)
    (hx : xs.Nodup) (hy : ys.Nodup) : xs.length = ys.length := by
  have hf := (pySetEq_toFinset xs ys).mp h
  rw [← List.toFinset_card_of_nodup hx, ← List.toFinset_card_of_nodup hy, hf]

/-! Lemmas about score validation and normalization. -/

theorem is_valid_score_iff (v : JValue) :
    _is_valid_score v = true ↔ ∃ q, pyFloat v = some q ∧ scoreValid q = true := by
  unfold _is_valid_score
  cases hf : pyFloat v
  · simp
  · simp

theorem prefilledOf_valid {sc : List (String × JValue)} {kv : String × ℚ}
    (h : kv ∈ prefilledOf sc) : scoreValid kv.2 = true := by
  unfold prefilledOf at h
  have h1 := mem_pyDictOfPairs h
  rcases List.mem_map.mp h1 with ⟨p, hp, he⟩
  rcases List.mem_filter.mp hp with ⟨_, hval⟩
  rcases (is_valid_score_iff p.2).mp hval with ⟨q, hq, hqv⟩
  have h2 : kv.2 = (pyFloat p.2).getD 0 := by rw [← he]
  rw [h2, hq]
  simpa using hqv

theorem exportCaseAssemble_prefilled (pf : List (String × ℚ)) (ip : Option JValue) :
    (exportCaseAssemble pf ip).prefilled = pf := by
  unfold exportCaseAssemble
  cases ip with
  | none => rfl
  | some w =>
      cases w
      case obj l =>
        dsimp only
        by_cases hl : l.length > 0
        · rw [if_pos hl]
        · rw [if_neg hl]
          rfl
      all_goals rfl

theorem normalize_prefilled_valid (raw : JValue) {kv : String × ℚ}
    (h : kv ∈ (_normalize_raw raw).prefilled) : scoreValid kv.2 = true := by
  cases raw with
  | obj fields =>
      simp only [_normalize_raw] at h
      cases hs : pyLookup fields "scores"
      · rw [hs] at h
        simp [dictCase] at h
      case some w =>
        rw [hs] at h
        cases w
        case obj sc =>
          dsimp only at h
          rw [show exportCaseResult sc (pyLookup fields "items_payloads")
                = exportCaseAssemble (prefilledOf sc) (pyLookup fields "items_payloads")
              from rfl] at h
          rw [exportCaseAssemble_prefilled] at h
          exact prefilledOf_valid h
        all_goals simp [dictCase] at h
  | arr xs =>
      simp only [_normalize_raw, listCase] at h
      split at h <;> simp at h
  | null => exact absurd h (List.not_mem_nil kv)
  | bool b => exact absurd h (List.not_mem_nil kv)
  | int n => exact absurd h (List.not_mem_nil kv)
  | num q => exact absurd h (List.not_mem_nil kv)
  | str s => exact absurd h (List.not_mem_nil kv)

/-! Lemmas about order restoration and regeneration. -/

theorem asStringList_map_str (os : List String) :
    asStringList (os.map JValue.str) = some os := by
  induction os with
  | nil => rfl
  | cons s rest ih => simp [asStringList, ih]

theorem asStringList_eq_some {xs : List JValue} {os : List String}
    (h : asStringList xs = some os) : xs = os.map JValue.str := by
  induction xs generalizing os with
  | nil =>
      have h0 : os = [] := by simpa [asStringList] using h.symm
      simp [h0]
  | cons x rest ih =>
      cases x
      case str s =>
        simp only [asStringList] at h
        cases hr : asStringList rest
        · rw [hr] at h
          simp at h
        case some os2 =>
          rw [hr] at h
          simp at h
          rw [← h]
          simp [ih hr]
      all_goals simp [asStringList] at h

theorem restore_some_iff (raw : JValue) (ids : List String) (os : List String) :
    _restore_order_from_meta raw ids = some os ↔
      (metaOrderField raw = some (.arr (os.map JValue.str)) ∧
       pySetEq os ids = true ∧ os.length = ids.length) := by
  constructor
  · intro h
    unfold _restore_order_from_meta at h
    cases hmo : metaOrderField raw
    · rw [hmo] at h
      cases h
    case some w =>
      rw [hmo] at h
      cases w
      case arr xs =>
        dsimp only at h
        cases hsl : asStringList xs
        · rw [hsl] at h
          cases h
        case some os2 =>
          rw [hsl] at h
          dsimp only at h
          by_cases hc : (pySetEq os2 ids && (os2.length == ids.length)) = true
          · rw [if_pos hc] at h
            have hoe : os2 = os := by simpa using h
            subst hoe
            rcases (by simpa using hc :
                pySetEq os2 ids = true ∧ (os2.length == ids.length) = true) with ⟨h1, h2⟩
            exact ⟨by rw [← asStringList_eq_some hsl], h1, by simpa using h2⟩
          · rw [if_neg hc] at h
            cases h
      all_goals (dsimp only at h; cases h)
  · rintro ⟨hmo, hset, hlen⟩
    unfold _restore_order_from_meta
    rw [hmo]
    dsimp only
    rw [asStringList_map_str]
    dsimp only
    rw [if_pos (by simp [hset, hlen])]

theorem restore_pySetEq {raw : JValue} {ids os : List String}
    (h : _restore_order_from_meta raw ids = some os) : pySetEq os ids = true :=
  ((restore_some_iff raw ids os).mp h).2.1

theorem make_base_order_perm (raw : JValue) (ids : List String)
    (shuffle : List String → List String) (hsh : ∀ l, (shuffle l).Perm l)
    (hres : _restore_order_from_meta raw ids = Option.none) :
    (_make_base_order raw ids shuffle).Perm ids := by
  unfold _make_base_order
  rw [hres]
  exact hsh ids

theorem make_base_order_setEq (raw : JValue) (ids : List String)
    (shuffle : List String → List String) (hsh : ∀ l, (shuffle l).Perm l) :
    pySetEq (_make_base_order raw ids shuffle) ids = true := by
  unfold _make_base_order
  cases hres : _restore_order_from_meta raw ids
  · exact pySetEq_of_perm (hsh ids)
  case some os => exact restore_pySetEq hres

theorem maintainBaseOrder_setEq (prev : Option (List String)) (raw : JValue)
    (ids : List String) (shuffle : List String → List String)
    (hsh : ∀ l, (shuffle l).Perm l) :
    pySetEq (maintainBaseOrder prev raw ids shuffle) ids = true := by
  unfold maintainBaseOrder
  cases prev
  · exact make_base_order_setEq raw ids shuffle hsh
  case some bo =>
    dsimp only
    by_cases hb : pySetEq bo ids = true
    · rw [if_pos hb]
      exact hb
    · rw [if_neg hb]
      exact make_base_order_setEq raw ids shuffle hsh

/-! Session-level invariants. -/

/-- All stored judgment values are in the allowed score set. -/
def ScoresValid (s : Session) : Prop := ∀ kv ∈ s.scores, scoreValid kv.2 = true

/-- When the hide-completed filter is on, no sticky exception is set. -/
def StickyCleared (s : Session) : Prop := s.hideCompleted = true → s.stickyId = Option.none

theorem normOf_prefilled_valid (s : Session) :
    ∀ kv ∈ (normOf s).prefilled, scoreValid kv.2 = true := by
  unfold normOf
  cases s.rawData
  · intro kv hkv
    exact absurd hkv (List.not_mem_nil kv)
  case some r => exact fun kv hkv => normalize_prefilled_valid r hkv

theorem foldl_pyDictInsert_valid (ps : List (String × ℚ)) :
    ∀ (acc : List (String × ℚ)), (∀ kv ∈ acc, scoreValid kv.2 = true) →
      (∀ kv ∈ ps, scoreValid kv.2 = true) →
      ∀ kv ∈ ps.foldl (fun d p => pyDictInsert d p.1 p.2) acc, scoreValid kv.2 = true := by
  induction ps with
  | nil => intro acc hacc _ kv hkv; exact hacc kv hkv
  | cons p rest ih =>
      intro acc hacc hps kv hkv
      simp only [List.foldl_cons] at hkv
      refine ih _ ?_ (fun kv2 h2 => hps kv2 (List.mem_cons_of_mem _ h2)) kv hkv
      intro kv2 h2
      rcases mem_pyDictInsert h2 with h3 | h3
      · exact hacc kv2 h3
      · rw [h3]
        exact hps p (List.mem_cons_self _ _)

theorem pyDictInsert_valid {d : List (String × ℚ)} {k : String} {v : ℚ}
    (hd : ∀ kv ∈ d, scoreValid kv.2 = true) (hv : scoreValid v = true) :
    ∀ kv ∈ pyDictInsert d k v, scoreValid kv.2 = true := by
  intro kv hkv
  rcases mem_pyDictInsert hkv with h1 | h1
  · exact hd kv h1
  · rw [h1]
    exact hv

theorem pageInit_scores (s : Session) (bo : List String) (vis : String → Bool) :
    (pageInit s bo vis).scores = s.scores := by
  unfold pageInit
  split <;> rfl

theorem pageInit_stable (s : Session) (bo : List String) (vis : String → Bool) :
    (pageInit s bo vis).rawData = s.rawData ∧ (pageInit s bo vis).source = s.source ∧
    (pageInit s bo vis).uploadedHash = s.uploadedHash ∧
    (pageInit s bo vis).stickyId = s.stickyId ∧
    (pageInit s bo vis).hideCompleted = s.hideCompleted := by
  unfold pageInit
  split <;> exact ⟨rfl, rfl, rfl, rfl, rfl⟩

theorem clampAndFill_stable (s : Session) (bo : List String) (vis : String → Bool) :
    (clampAndFill s bo vis).rawData = s.rawData ∧
    (clampAndFill s bo vis).source = s.source ∧
    (clampAndFill s bo vis).uploadedHash = s.uploadedHash ∧
    (clampAndFill s bo vis).stickyId = s.stickyId ∧
    (clampAndFill s bo vis).hideCompleted = s.hideCompleted := by
  unfold clampAndFill
  dsimp only
  split <;> split <;> exact ⟨rfl, rfl, rfl, rfl, rfl⟩

theorem clampAndFill_valid {s : Session} {bo : List String} {vis : String → Bool}
    (h : ScoresValid s) : ScoresValid (clampAndFill s bo vis) := by
  unfold clampAndFill
  dsimp only
  split
  · split
    · intro kv hkv
      dsimp only at hkv
      rcases mem_pyDictInsert hkv with h1 | h1
      · exact h kv h1
      · rw [h1]
        exact (by decide : scoreValid 0 = true)
    · intro kv hkv
      exact h kv hkv
  · split
    · intro kv hkv
      dsimp only at hkv
      rcases mem_pyDictInsert hkv with h1 | h1
      · exact h kv h1
      · rw [h1]
        exact (by decide : scoreValid 0 = true)
    · intro kv hkv
      exact h kv hkv

theorem runMain_stable (s : Session) (sh : List String → List String) :
    (runMain s sh).rawData = s.rawData ∧ (runMain s sh).source = s.source ∧
    (runMain s sh).uploadedHash = s.uploadedHash ∧
    (runMain s sh).stickyId = s.stickyId ∧
    (runMain s sh).hideCompleted = s.hideCompleted := by
  unfold runMain
  dsimp only
  split
  · exact ⟨rfl, rfl, rfl, rfl, rfl⟩
  · split
    · exact pageInit_stable _ _ _
    · rcases clampAndFill_stable (pageInit _ _ _) _ _ with ⟨h1, h2, h3, h4, h5⟩
      rcases pageInit_stable _ _ _ with ⟨g1, g2, g3, g4, g5⟩
      exact ⟨h1.trans g1, h2.trans g2, h3.trans g3, h4.trans g4, h5.trans g5⟩

theorem runMain_valid {s : Session} (sh : List String → List String)
    (h : ScoresValid s) : ScoresValid (runMain s sh) := by
  have hmerge : ScoresValid (mergePrefilled s (normOf s).prefilled) := by
    unfold mergePrefilled
    intro kv hkv
    exact foldl_pyDictInsert_valid _ _ h (normOf_prefilled_valid s) kv hkv
  unfold runMain
  dsimp only
  split
  · exact h
  · split
    · intro kv hkv
      rw [pageInit_scores] at hkv
      exact hmerge kv hkv
    · refine clampAndFill_valid ?_
      intro kv hkv
      rw [pageInit_scores] at hkv
      exact hmerge kv hkv

theorem scoresValid_mono {s1 s2 : Session} (he : s1.scores = s2.scores)
    (h : ScoresValid s2) : ScoresValid s1 := by
  intro kv hkv
  rw [he] at hkv
  exact h kv hkv

theorem stickyCleared_mono {s1 s2 : Session} (hs : s1.stickyId = s2.stickyId)
    (hh : s1.hideCompleted = s2.hideCompleted) (h : StickyCleared s2) :
    StickyCleared s1 := by
  intro hx
  rw [hs]
  exact h (hh ▸ hx)

theorem phaseLoad_stable (env : Env) (s : Session) :
    (phaseLoad env s).scores = s.scores ∧ (phaseLoad env s).stickyId = s.stickyId ∧
    (phaseLoad env s).hideCompleted = s.hideCompleted := by
  unfold phaseLoad
  split
  · split <;> exact ⟨rfl, rfl, rfl⟩
  · exact ⟨rfl, rfl, rfl⟩

theorem processUpload_sticky_hide (env : Env) (s : Session) :
    (processUpload env s).stickyId = s.stickyId ∧
    (processUpload env s).hideCompleted = s.hideCompleted := by
  unfold processUpload
  split
  · split
    · exact ⟨rfl, rfl⟩
    · split <;> exact ⟨rfl, rfl⟩
  · exact ⟨rfl, rfl⟩

theorem processUpload_valid (env : Env) {s : Session} (h : ScoresValid s) :
    ScoresValid (processUpload env s) := by
  unfold processUpload
  split
  · split
    · exact h
    · split
      · intro kv hkv
        exact absurd hkv (List.not_mem_nil kv)
      · exact h
  · exact h

theorem cbSetScore_sticky (s : Session) (v : ℚ) : StickyCleared (cbSetScore s v) := by
  unfold cbSetScore
  dsimp only
  split
  · intro _
    rfl
  case isFalse hcond =>
    intro hh
    exact absurd hh hcond

theorem applyEvent_sticky (s : Session) (ev : Event) (h : StickyCleared s) :
    StickyCleared (applyEvent s ev) := by
  cases ev with
  | idle => exact h
  | setScore v => exact cbSetScore_sticky s v
  | nextPage => intro _; rfl
  | prevPage => intro _; rfl
  | toggleHide => intro _; rfl

theorem applyEvent_valid (s : Session) (ev : Event) (hev : EventOK ev)
    (h : ScoresValid s) : ScoresValid (applyEvent s ev) := by
  cases ev with
  | idle => exact h
  | setScore v =>
      have hv : scoreValid v = true := by
        rcases hev with h1 | h1 | h1 <;> rw [h1] <;> decide
      unfold applyEvent cbSetScore
      dsimp only
      split
      · intro kv hkv
        dsimp only at hkv
        exact pyDictInsert_valid h hv kv hkv
      · intro kv hkv
        dsimp only at hkv
        exact pyDictInsert_valid h hv kv hkv
  | nextPage => exact fun kv hkv => h kv hkv
  | prevPage => exact fun kv hkv => h kv hkv
  | toggleHide => exact fun kv hkv => h kv hkv

theorem step_valid {s : Session} (env : Env) (ev : Event)
    (shuffle : List String → List String) (hev : EventOK ev) (h : ScoresValid s) :
    ScoresValid (step s env ev shuffle) := by
  unfold step runScript
  exact runMain_valid _ (processUpload_valid env
    (scoresValid_mono (phaseLoad_stable env (applyEvent s ev)).1
      (applyEvent_valid s ev hev h)))

theorem step_sticky {s : Session} (env : Env) (ev : Event)
    (shuffle : List String → List String) (h : StickyCleared s) :
    StickyCleared (step s env ev shuffle) := by
  unfold step runScript
  have h1 := applyEvent_sticky s ev h
  have h2 : StickyCleared (phaseLoad env (applyEvent s ev)) :=
    stickyCleared_mono (phaseLoad_stable env _).2.1 (phaseLoad_stable env _).2.2 h1
  have h3 : StickyCleared (processUpload env (phaseLoad env (applyEvent s ev))) :=
    stickyCleared_mono (processUpload_sticky_hide env _).1
      (processUpload_sticky_hide env _).2 h2
  exact stickyCleared_mono (runMain_stable _ _).2.2.2.1 (runMain_stable _ _).2.2.2.2 h3

theorem reachable_scoresValid {s : Session} (h : Reachable s) : ScoresValid s := by
  induction h with
  | init => intro kv hkv; exact absurd hkv (List.not_mem_nil kv)
  | next s env ev shuffle hs hshuffle hev ih => exact step_valid env ev shuffle hev ih

theorem reachable_stickyCleared {s : Session} (h : Reachable s) : StickyCleared s := by
  induction h with
  | init => intro _; rfl
  | next s env ev shuffle hs hshuffle hev ih => exact step_sticky env ev shuffle ih

theorem pyLookup_mem {α : Type} {d : List (String × α)} {key : String} {v : α}
    (h : pyLookup d key = some v) : (key, v) ∈ d := by
  induction d with
  | nil => cases h
  | cons p rest ih =>
      obtain ⟨k, w⟩ := p
      by_cases hk : (k == key) = true
      · rw [pyLookup, if_pos hk] at h
        have he1 : w = v := by simpa using h
        have he2 : k = key := by simpa using hk
        subst he1
        subst he2
        exact List.mem_cons_self _ _
      · rw [pyLookup, if_neg hk] at h
        exact List.mem_cons_of_mem _ (ih h)

/-! Lemmas for the first-unscored cursor seed. -/

theorem firstNone_none_iff (scores : List (String × ℚ)) (order : List String) :
    firstNone scores order = Option.none ↔
      ∀ k ∈ order, (pyLookup scores k).isSome = true := by
  induction order with
  | nil => simp [firstNone]
  | cons k rest ih =>
      cases hk : pyLookup scores k
      · simp [firstNone, hk]
      · simp [firstNone, hk, ih]

theorem firstNone_eq_some_of (scores : List (String × ℚ)) (order : List String) :
    ∀ (n : ℕ) (k : String), order.get? n = some k → pyLookup scores k = Option.none →
      (∀ m km, m < n → order.get? m = some km → (pyLookup scores km).isSome = true) →
      firstNone scores order = some n := by
  induction order with
  | nil =>
      intro n k h _ _
      cases h
  | cons k0 rest ih =>
      intro n k hget hnone hbefore
      cases n with
      | zero =>
          have he : k0 = k := by simpa using hget
          subst he
          simp [firstNone, hnone]
      | succ n2 =>
          have h0 : (pyLookup scores k0).isSome = true :=
            hbefore 0 k0 (Nat.succ_pos n2) rfl
          have hrec := ih n2 k (by simpa using hget) hnone
            (fun m km hm hg => hbefore (m + 1) km (Nat.succ_lt_succ hm) (by simpa using hg))
          cases hk0 : pyLookup scores k0
          · rw [hk0] at h0
            exact absurd h0 (by simp)
          · simp [firstNone, hk0, hrec]

/-! Claim theorems. -/

/-- C6 (counterexample): in a state where every id in the order carries a
valid judgment, `_first_unscored` returns 0 — the position of a judged
item — and not the end-of-list sentinel `len(order)` the claim asserts. -/
theorem c6_counterexample :
    _first_unscored ["a"] [("a", (1 : ℚ))] = 0 ∧
    (pyLookup [("a", (1 : ℚ))] "a").isSome = true ∧
    scoreValid 1 = true ∧
    _first_unscored ["a"] [("a", (1 : ℚ))] ≠ (["a"] : List String).length :=
  ⟨by decide, by decide, by decide, by decide⟩

/-- C6 (amended): for every order and judgment store holding only valid
values, `_first_unscored` returns the position of the first id in the
order lacking a valid judgment; if every id already has a valid judgment
it returns 0 (the start of the list), not an end-of-list sentinel. -/
theorem c6_first_unjudged (order : List String) (scores : List (String × ℚ))
    (hval : ∀ kv ∈ scores, scoreValid kv.2 = true) :
    ((∀ k ∈ order, ∃ v, pyLookup scores k = some v ∧ scoreValid v = true) →
       _first_unscored order scores = 0) ∧
    (∀ n k, order.get? n = some k →
       (¬ ∃ v, pyLookup scores k = some v ∧ scoreValid v = true) →
       (∀ m km, m < n → order.get? m = some km →
          ∃ v, pyLookup scores km = some v ∧ scoreValid v = true) →
       _first_unscored order scores = n) := by
  have hbridge : ∀ k2, (pyLookup scores k2).isSome = true ↔
      ∃ v, pyLookup scores k2 = some v ∧ scoreValid v = true := by
    intro k2
    constructor
    · intro hs
      rcases Option.isSome_iff_exists.mp hs with ⟨v, hv⟩
      exact ⟨v, hv, hval (k2, v) (pyLookup_mem hv)⟩
    · rintro ⟨v, hv, _⟩
      rw [hv]
      rfl
  constructor
  · intro hall
    unfold _first_unscored
    rw [(firstNone_none_iff scores order).mpr (fun k hk => (hbridge k).mpr (hall k hk))]
    rfl
  · intro n k hget hnone hbefore
    have hlk : pyLookup scores k = Option.none := by
      cases hlk : pyLookup scores k
      · rfl
      case some v =>
        exact absurd ⟨v, hlk, hval (k, v) (pyLookup_mem hlk)⟩ hnone
    unfold _first_unscored
    rw [firstNone_eq_some_of scores order n k hget hlk
      (fun m km hm hg => (hbridge km).mpr (hbefore m km hm hg))]
    rfl

/-- C6 (witness): with order `["a","b"]` and only `"a"` judged,
`_first_unscored` is 1, the position of `"b"`. -/
theorem c6_witness :
    (∀ kv ∈ [("a", (1 : ℚ))], scoreValid kv.2 = true) ∧
    _first_unscored ["a", "b"] [("a", (1 : ℚ))] = 1 :=
  ⟨by decide,
   (c6_first_unjudged ["a", "b"] [("a", (1 : ℚ))] (by decide)).2 1 "b" rfl
     (by rintro ⟨v, hv, _⟩; cases hv)
     (by
       intro m km hm hg
       have hm0 : m = 0 := Nat.lt_one_iff.mp hm
       subst hm0
       have he : "a" = km := by simpa using hg
       subst he
       exact ⟨1, rfl, by decide⟩)⟩

/-- C5 (counterexample): with duplicate ids `["a","a","b"]`, the stored
order `["a","b","b"]` passes the set-and-length test and is accepted,
although it is not a permutation of the ids. -/
theorem c5_counterexample :
    _restore_order_from_meta
        (.obj [("meta", .obj [("order", .arr [.str "a", .str "b", .str "b"])])])
        ["a", "a", "b"] = some ["a", "b", "b"] ∧
    ¬ List.Perm ["a", "b", "b"] ["a", "a", "b"] := by
  constructor
  · decide
  · intro h
    have hc := h.count_eq "a"
    simp [List.count_cons] at hc

/-- C5 (amended): a stored order is accepted iff it is a list of strings
read from `meta.order` whose underlying set equals the set of the current
ids and whose length equals theirs (for duplicate-free ids this coincides
with being a permutation); otherwise the fresh order is the shuffle of the
ids, a permutation. -/
theorem c5_restore_acceptance (raw : JValue) (ids : List String) :
    (∀ os, _restore_order_from_meta raw ids = some os ↔
        (metaOrderField raw = some (.arr (os.map JValue.str)) ∧
         pySetEq os ids = true ∧ os.length = ids.length)) ∧
    (∀ shuffle : List String → List String, (∀ l, (shuffle l).Perm l) →
        _restore_order_from_meta raw ids = Option.none →
        _make_base_order raw ids shuffle = shuffle ids ∧
        (_make_base_order raw ids shuffle).Perm ids) := by
  refine ⟨fun os => restore_some_iff raw ids os, fun shuffle hsh hres => ⟨?_, ?_⟩⟩
  · unfold _make_base_order
    rw [hres]
  · exact make_base_order_perm raw ids shuffle hsh hres

/-- C5 (witness): a stored order that is a genuine permutation is accepted,
and on a non-export input the fallback shuffle is used. -/
theorem c5_witness :
    (_restore_order_from_meta
        (.obj [("meta", .obj [("order", .arr [.str "b", .str "a"])])]) ["a", "b"]
      = some ["b", "a"] ↔
      (metaOrderField (.obj [("meta", .obj [("order", .arr [.str "b", .str "a"])])])
          = some (.arr (["b", "a"].map JValue.str)) ∧
       pySetEq ["b", "a"] ["a", "b"] = true ∧
       (["b", "a"] : List String).length = (["a", "b"] : List String).length)) ∧
    (_make_base_order (.str "x") ["a", "b"] idShuffle = idShuffle ["a", "b"] ∧
     (_make_base_order (.str "x") ["a", "b"] idShuffle).Perm ["a", "b"]) :=
  ⟨(c5_restore_acceptance (.obj [("meta", .obj [("order", .arr [.str "b", .str "a"])])])
      ["a", "b"]).1 ["b", "a"],
   (c5_restore_acceptance (.str "x") ["a", "b"]).2 idShuffle
     (fun l => List.Perm.refl l) (by decide)⟩

/-- C4 (counterexample): for the scalar list `["a","a"]` the id sequence is
`["a","a"]`, which does contain duplicate ids — only the payload map
collapses them. -/
theorem c4_counterexample :
    (_normalize_raw (.arr [.str "a", .str "a"])).ids = ["a", "a"] ∧
    ¬ (_normalize_raw (.arr [.str "a", .str "a"])).ids.Nodup :=
  ⟨by decide, by decide⟩

/-- C4 (amended): for a sequence of scalars, each scalar's string form
becomes an id, one per source element (so the id sequence can repeat);
the payload map collapses duplicate string forms to a single key — its
keys are duplicate-free, cover the same set as the ids, and each key maps
to the payload of the last source element with that string form. -/
theorem c4_scalar_list (xs : List JValue) (hsc : xs.all isScalar = true) :
    (_normalize_raw (.arr xs)).ids = xs.map pyStr ∧
    ((_normalize_raw (.arr xs)).payloads.map Prod.fst).Nodup ∧
    pySetEq ((_normalize_raw (.arr xs)).payloads.map Prod.fst)
      (_normalize_raw (.arr xs)).ids = true ∧
    (∀ k, pyLookup (_normalize_raw (.arr xs)).payloads k =
       xs.reverse.find? (fun x => pyStr x == k)) := by
  have he : _normalize_raw (.arr xs) =
      ⟨xs.map pyStr, [], pyDictOfPairs (xs.map (fun x => (pyStr x, x)))⟩ := by
    unfold _normalize_raw listCase
    dsimp only
    rw [if_pos hsc]
  rw [he]
  refine ⟨rfl, nodupkeys_pyDictOfPairs _, ?_, ?_⟩
  · rw [pySetEq_iff_mem]
    intro a
    rw [key_mem_pyDictOfPairs_iff]
    constructor
    · intro h
      rcases List.mem_map.mp h with ⟨p, hp, hpe⟩
      rcases List.mem_map.mp hp with ⟨x, hx, hxe⟩
      exact List.mem_map.mpr ⟨x, hx, by rw [← hxe] at hpe; simpa using hpe⟩
    · intro h
      rcases List.mem_map.mp h with ⟨x, hx, hxe⟩
      exact List.mem_map.mpr ⟨(pyStr x, x), List.mem_map.mpr ⟨x, hx, rfl⟩, hxe⟩
  · intro k
    rw [pyLookup_pyDictOfPairs]
    rw [show (xs.map (fun x => (pyStr x, x))).reverse
          = xs.reverse.map (fun x => (pyStr x, x)) from
        (List.map_reverse _ _).symm]
    rw [List.find?_map]
    cases hf : xs.reverse.find? ((fun kv => kv.1 == k) ∘ (fun x => (pyStr x, x)))
    · have hf2 : xs.reverse.find? (fun x => pyStr x == k) = Option.none := hf
      rw [hf2]
      rfl
    case some x =>
      have hf2 : xs.reverse.find? (fun x => pyStr x == k) = some x := hf
      rw [hf2]
      rfl

/-- C4 (witness): the scalar list `["b","a","b"]` keeps both occurrences
of `"b"` in the id sequence while the payload map holds one entry for it,
the last one. -/
theorem c4_witness :
    ([JValue.str "b", JValue.str "a", JValue.str "b"].all isScalar = true) ∧
    (_normalize_raw (.arr [.str "b", .str "a", .str "b"])).ids = ["b", "a", "b"] ∧
    ((_normalize_raw (.arr [.str "b", .str "a", .str "b"])).payloads.map Prod.fst).Nodup ∧
    pyLookup (_normalize_raw (.arr [.str "b", .str "a", .str "b"])).payloads "b" =
      [JValue.str "b", JValue.str "a", JValue.str "b"].reverse.find?
        (fun x => pyStr x == "b") :=
  ⟨by decide,
   (c4_scalar_list [.str "b", .str "a", .str "b"] (by decide)).1,
   (c4_scalar_list [.str "b", .str "a", .str "b"] (by decide)).2.1,
   (c4_scalar_list [.str "b", .str "a", .str "b"] (by decide)).2.2.2 "b"⟩

/-- C3 (counterexample): a reachable two-interaction session — load
`["a","b"]`, then upload `["a","a","b"]` — keeps the cached order
`["a","b"]` because its id set still matches, leaving
`len(order) = 2 ≠ 3 = len(ids)`: the claimed length half of the invariant
fails in a reachable state without triggering regeneration. -/
theorem c3_counterexample :
    Reachable stateABthenAAB ∧
    stateABthenAAB.baseOrder = some ["a", "b"] ∧
    sessionIds stateABthenAAB = ["a", "a", "b"] ∧
    (["a", "b"] : List String).length ≠ (["a", "a", "b"] : List String).length :=
  ⟨Reachable.next _ _ _ _
      (Reachable.next _ _ _ _ Reachable.init (fun l => List.Perm.refl l) trivial)
      (fun l => List.Perm.refl l) trivial,
   by decide, by decide, by decide⟩

/-- C3 (amended): the order-maintenance step of lines 200-207 always
produces an order whose id set equals the live id set — regenerating
whenever the sets differ and never crashing (it is a total function) —
and keeps the cached order verbatim when the sets match; equality of
lengths is not part of the maintained invariant. -/
theorem c3_order_set_invariant (prev : Option (List String)) (raw : JValue)
    (idsAll : List String) (shuffle : List String → List String)
    (hsh : ∀ l, (shuffle l).Perm l) :
    pySetEq (maintainBaseOrder prev raw idsAll shuffle) idsAll = true ∧
    (∀ bo, prev = some bo → pySetEq bo idsAll = true →
        maintainBaseOrder prev raw idsAll shuffle = bo) := by
  refine ⟨maintainBaseOrder_setEq prev raw idsAll shuffle hsh, ?_⟩
  rintro bo rfl hb
  unfold maintainBaseOrder
  dsimp only
  rw [if_pos hb]

/-- C3 (witness): the cached order `["a","b"]` is kept against the
duplicate id list `["a","a","b"]` since the sets match. -/
theorem c3_witness :
    pySetEq (maintainBaseOrder (some ["a", "b"]) .null ["a", "a", "b"] idShuffle)
      ["a", "a", "b"] = true ∧
    maintainBaseOrder (some ["a", "b"]) .null ["a", "a", "b"] idShuffle = ["a", "b"] :=
  ⟨(c3_order_set_invariant (some ["a", "b"]) .null ["a", "a", "b"] idShuffle
      (fun l => List.Perm.refl l)).1,
   (c3_order_set_invariant (some ["a", "b"]) .null ["a", "a", "b"] idShuffle
      (fun l => List.Perm.refl l)).2 ["a", "b"] rfl (by decide)⟩

/-- C9 (counterexample): after processing the upload of `["a","b"]`, the
very next rerun with the same file (equal content hash) skips the upload
block but still changes the session: the previously viewed item was
default-scored 0 and hidden, so the cursor advances and the next item is
default-scored too — `scores` and the cursor both differ. -/
theorem c9_counterexample :
    Reachable stateUploadedAB ∧
    stateUploadedAB.uploadedHash = some "v" ∧
    envUploadAB.upload = some ("v", some (.arr [.str "a", .str "b"])) ∧
    stateUploadedABAgain.scores ≠ stateUploadedAB.scores ∧
    stateUploadedABAgain.page ≠ stateUploadedAB.page :=
  ⟨Reachable.next _ _ _ _ Reachable.init (fun l => List.Perm.refl l) trivial,
   by decide, rfl, by decide, by decide⟩

/-- C9 (amended): when the uploader content hash equals the stored hash,
the upload-handling block itself is the identity on the session — raw
data, stored hash, scores and source are not touched by it — and the full
rerun leaves raw data, stored hash and source unchanged; the rerun may
still modify scores and cursor through the view-scores-zero behaviour. -/
theorem c9_upload_dedup (s : Session) (env : Env) (c : String) (pj : Option JValue)
    (hup : env.upload = some (c, pj)) (hhash : s.uploadedHash = some c) :
    processUpload env s = s ∧
    (∀ (shuffle : List String → List String) (r : JValue), s.rawData = some r →
      ((step s env .idle shuffle).rawData = s.rawData ∧
       (step s env .idle shuffle).uploadedHash = s.uploadedHash ∧
       (step s env .idle shuffle).source = s.source)) := by
  have hpu : processUpload env s = s := by
    unfold processUpload
    rw [hup]
    dsimp only
    rw [if_pos (by simp [hhash])]
  refine ⟨hpu, fun shuffle r hraw => ?_⟩
  unfold step runScript
  have hae : applyEvent s Event.idle = s := rfl
  have hpl : phaseLoad env s = s := by
    unfold phaseLoad
    rw [if_neg (by simp [hraw])]
  rw [hae, hpl, hpu]
  rcases runMain_stable s shuffle with ⟨h1, h2, h3, _, _⟩
  exact ⟨h1, h3, h2⟩

/-- C9 (witness): the dedup branch fires on the concrete re-upload of the
same file. -/
theorem c9_witness :
    processUpload envUploadAB stateUploadedAB = stateUploadedAB ∧
    (step stateUploadedAB envUploadAB .idle idShuffle).rawData =
      stateUploadedAB.rawData :=
  ⟨(c9_upload_dedup stateUploadedAB envUploadAB "v" (some (.arr [.str "a", .str "b"]))
      rfl (by decide)).1,
   ((c9_upload_dedup stateUploadedAB envUploadAB "v" (some (.arr [.str "a", .str "b"]))
      rfl (by decide)).2 idShuffle (.arr [.str "a", .str "b"]) rfl).1⟩

theorem nodupkeys_eq_of_mem {α : Type} {d : List (String × α)}
    (hnd : (d.map Prod.fst).Nodup) {k : String} {v w : α}
    (h1 : (k, v) ∈ d) (h2 : (k, w) ∈ d) : v = w := by
  induction d with
  | nil => cases h1
  | cons p rest ih =>
      have hnd1 : (p.1 :: rest.map Prod.fst).Nodup := by simpa using hnd
      have hknot : p.1 ∉ rest.map Prod.fst := (List.nodup_cons.mp hnd1).1
      rcases List.mem_cons.mp h1 with he1 | h1r
      · rcases List.mem_cons.mp h2 with he2 | h2r
        · have he3 := he1.trans he2.symm
          simpa using he3
        · exfalso
          apply hknot
          rw [← he1]
          exact List.mem_map.mpr ⟨(k, w), h2r, rfl⟩
      · rcases List.mem_cons.mp h2 with he2 | h2r
        · exfalso
          apply hknot
          rw [← he2]
          exact List.mem_map.mpr ⟨(k, v), h1r, rfl⟩
        · exact ih (List.nodup_cons.mp hnd1).2 h1r h2r

theorem normalize_obj_prefilled {fields sc : List (String × JValue)}
    (hs : pyLookup fields "scores" = some (.obj sc)) :
    (_normalize_raw (.obj fields)).prefilled = prefilledOf sc := by
  unfold _normalize_raw
  dsimp only
  rw [hs]
  exact exportCaseAssemble_prefilled _ _

/-- C2: in every reachable session state the exported scores mapping
carries only values from the allowed set; prefilled judgments produced by
normalization always carry allowed values; and a score entry of a prior
export whose value fails validation is dropped from the prefill without
error. -/
theorem c2_invalid_excluded :
    (∀ s : Session, Reachable s →
        (exportScores s.scores (sessionIds s)).all (fun kv => scoreValid kv.2) = true) ∧
    (∀ raw : JValue,
        (_normalize_raw raw).prefilled.all (fun kv => scoreValid kv.2) = true) ∧
    (∀ (fields sc : List (String × JValue)) (k : String) (v : JValue),
        pyLookup fields "scores" = some (.obj sc) →
        (sc.map Prod.fst).Nodup →
        (k, v) ∈ sc → _is_valid_score v = false →
        pyLookup (_normalize_raw (.obj fields)).prefilled k = Option.none) := by
  refine ⟨?_, ?_, ?_⟩
  · intro s hr
    rw [List.all_eq_true]
    intro kv hkv
    have hv := reachable_scoresValid hr
    unfold exportScores at hkv
    have h1 := mem_pyDictOfPairs hkv
    exact hv kv (List.mem_filter.mp h1).1
  · intro raw
    rw [List.all_eq_true]
    intro kv hkv
    exact normalize_prefilled_valid raw hkv
  · intro fields sc k v hs hnd hmem hinv
    rw [normalize_obj_prefilled hs]
    unfold prefilledOf
    rw [pyLookup_pyDictOfPairs]
    have hnone : ((sc.filter (fun kv => _is_valid_score kv.2)).map
        (fun kv => (kv.1, (pyFloat kv.2).getD 0))).reverse.find?
          (fun kv => kv.1 == k) = Option.none := by
      rw [List.find?_eq_none]
      intro p hp
      rw [List.mem_reverse] at hp
      rcases List.mem_map.mp hp with ⟨kv2, hkv2, hpe⟩
      rcases List.mem_filter.mp hkv2 with ⟨hkv2sc, hkv2val⟩
      intro hbeq
      have hk2 : kv2.1 = k := by
        have hpk : p.1 = k := by simpa using hbeq
        rw [← hpe] at hpk
        simpa using hpk
      have hv2 : kv2.2 = v := by
        have hm2 : (k, kv2.2) ∈ sc := by
          rw [← hk2]
          simpa using hkv2sc
        exact nodupkeys_eq_of_mem hnd hm2 hmem
      rw [hv2] at hkv2val
      rw [hinv] at hkv2val
      cases hkv2val
    rw [hnone]

/-- C2 (witness): a reachable state exports only valid values; a prior
export with entries 1.0 (valid) and 7.0 (invalid) prefills only the valid
one; the invalid entry is absent from the prefill. -/
theorem c2_witness :
    (exportScores stateAB.scores (sessionIds stateAB)).all
      (fun kv => scoreValid kv.2) = true ∧
    (_normalize_raw (.obj [("scores",
        .obj [("a", .num 1), ("b", .num 7)])])).prefilled.all
      (fun kv => scoreValid kv.2) = true ∧
    pyLookup (_normalize_raw (.obj [("scores", .obj [("a", .num 7)])])).prefilled "a"
      = Option.none :=
  ⟨c2_invalid_excluded.1 stateAB
      (Reachable.next _ _ _ _ Reachable.init (fun l => List.Perm.refl l) trivial),
   c2_invalid_excluded.2.1 (.obj [("scores", .obj [("a", .num 1), ("b", .num 7)])]),
   c2_invalid_excluded.2.2 [("scores", .obj [("a", .num 7)])] [("a", .num 7)] "a" (.num 7)
     rfl (by decide) (List.mem_cons_self _ _) (by decide)⟩

/-- C7: in every reachable session state with hide_completed on, the
number of visible ids of the order equals the number of unjudged ids plus
one exactly when the sticky id is judged, and equals the number of
unjudged ids exactly when the sticky id is unset or unjudged.  (In such
states the sticky id is in fact always unset: every code path that turns
the filter on also clears it.) -/
theorem c7_visibility_count (s : Session) (hr : Reachable s)
    (hh : s.hideCompleted = true) (bo : List String) (_hbo : s.baseOrder = some bo) :
    ((bo.filter (fun k => isVisible s.hideCompleted
          (fun x => isCompleted s.scores (sessionIds s) x) s.stickyId k)).length
      = (bo.filter (fun k => !(isCompleted s.scores (sessionIds s) k))).length
        + (if (match s.stickyId with
               | some x => isCompleted s.scores (sessionIds s) x
               | none => false) then 1 else 0)) ∧
    (((bo.filter (fun k => isVisible s.hideCompleted
          (fun x => isCompleted s.scores (sessionIds s) x) s.stickyId k)).length
      = (bo.filter (fun k => !(isCompleted s.scores (sessionIds s) k))).length)
      ↔ (s.stickyId = Option.none ∨
         (match s.stickyId with
          | some x => isCompleted s.scores (sessionIds s) x
          | none => false) = false)) := by
  have hst : s.stickyId = Option.none := reachable_stickyCleared hr hh
  have hfeq : (bo.filter (fun k => isVisible s.hideCompleted
        (fun x => isCompleted s.scores (sessionIds s) x) s.stickyId k))
      = (bo.filter (fun k => !(isCompleted s.scores (sessionIds s) k))) := by
    apply List.filter_congr
    intro k _
    rw [hh, hst]
    simp [isVisible]
  rw [hfeq, hst]
  exact ⟨by simp, by simp⟩

/-- C7 (witness): after loading `["a","b"]`, the filter is on, the viewed
item `"a"` was default-scored, and the visible count 1 equals the
unjudged count 1 plus 0 for the unset sticky id. -/
theorem c7_witness :
    stateAB.hideCompleted = true ∧
    stateAB.baseOrder = some ["a", "b"] ∧
    ((["a", "b"].filter (fun k => isVisible stateAB.hideCompleted
          (fun x => isCompleted stateAB.scores (sessionIds stateAB) x)
          stateAB.stickyId k)).length
      = (["a", "b"].filter
          (fun k => !(isCompleted stateAB.scores (sessionIds stateAB) k))).length
        + (if (match stateAB.stickyId with
               | some x => isCompleted stateAB.scores (sessionIds stateAB) x
               | none => false) then 1 else 0)) :=
  ⟨by decide, by decide,
   (c7_visibility_count stateAB
      (Reachable.next _ _ _ _ Reachable.init (fun l => List.Perm.refl l) trivial)
      (by decide) ["a", "b"] (by decide)).1⟩

theorem mapM_except_ok {α β : Type} (f : α → Except String β) (g : α → β)
    (l : List α) (h : ∀ x ∈ l, f x = .ok (g x)) : l.mapM f = .ok (l.map g) := by
  induction l with
  | nil => rfl
  | cons x rest ih =>
      rw [List.mapM_cons, h x (List.mem_cons_self _ _),
        ih (fun y hy => h y (List.mem_cons_of_mem _ hy))]
      rfl

theorem prefilledOfE_ok (sc : List (String × JValue)) :
    prefilledOfE sc = Except.ok (prefilledOf sc) := by
  unfold prefilledOfE prefilledOf
  rw [mapM_except_ok _ (fun kv => (kv.1, (pyFloat kv.2).getD 0)) _ ?h]
  · rfl
  case h =>
    intro kv hkv
    rcases List.mem_filter.mp hkv with ⟨_, hval⟩
    rcases (is_valid_score_iff kv.2).mp hval with ⟨q, hq, _⟩
    simp [hq]

/-- C8: normalization is total and degrades gracefully: the
exception-aware rendition of `_normalize_raw` returns `ok` of the plain
result on every JSON-like input (the guarded `float(v)` can never raise);
a dict whose `scores` key is not itself a dict is treated as a plain dict
input; and a usable `scores` dict with a missing, empty or non-dict
`items_payloads` falls back to the prefilled keys with id-as-payload. -/
theorem c8_normalize_total (raw : JValue) :
    normalizeRawE raw = Except.ok (_normalize_raw raw) ∧
    (∀ fields w, raw = .obj fields → pyLookup fields "scores" = some w →
        (∀ sc, w ≠ .obj sc) → _normalize_raw raw = dictCase fields) ∧
    (∀ fields sc, raw = .obj fields → pyLookup fields "scores" = some (.obj sc) →
        (pyLookup fields "items_payloads" = Option.none ∨
         pyLookup fields "items_payloads" = some (.obj []) ∨
         (∃ w, pyLookup fields "items_payloads" = some w ∧ ∀ ip, w ≠ .obj ip)) →
        _normalize_raw raw = exportCaseFallback (prefilledOf sc)) := by
  refine ⟨?_, ?_, ?_⟩
  · cases raw
    case obj fields =>
      unfold normalizeRawE _normalize_raw
      dsimp only
      cases hs : pyLookup fields "scores"
      · rfl
      case some w =>
        cases w
        case obj sc =>
          dsimp only
          rw [prefilledOfE_ok]
          rfl
        all_goals rfl
    all_goals rfl
  · rintro fields w rfl hsw hnobj
    unfold _normalize_raw
    dsimp only
    rw [hsw]
    cases w
    case obj sc => exact absurd rfl (hnobj sc)
    all_goals rfl
  · rintro fields sc rfl hs hip
    unfold _normalize_raw
    dsimp only
    rw [hs]
    show exportCaseResult sc (pyLookup fields "items_payloads")
        = exportCaseFallback (prefilledOf sc)
    unfold exportCaseResult exportCaseAssemble
    rcases hip with h1 | h1 | ⟨w, h1, h2⟩
    · rw [h1]
    · rw [h1]
      dsimp only
      rw [if_neg (by decide)]
    · rw [h1]
      cases w
      case obj ip => exact absurd rfl (h2 ip)
      all_goals rfl

/-- C8 (witness): a non-dict `scores` value degrades to the dict case; a
non-dict `items_payloads` degrades to id-as-payload; both without error. -/
theorem c8_witness :
    normalizeRawE (.obj [("scores", .str "bad")])
      = Except.ok (_normalize_raw (.obj [("scores", .str "bad")])) ∧
    _normalize_raw (.obj [("scores", .str "bad")]) = dictCase [("scores", .str "bad")] ∧
    _normalize_raw (.obj [("scores", .obj [("a", .num 1)]), ("items_payloads", .int 5)])
      = exportCaseFallback (prefilledOf [("a", .num 1)]) :=
  ⟨(c8_normalize_total (.obj [("scores", .str "bad")])).1,
   (c8_normalize_total (.obj [("scores", .str "bad")])).2.1
     [("scores", .str "bad")] (.str "bad") rfl rfl (by intro sc h; cases h),
   (c8_normalize_total (.obj [("scores", .obj [("a", .num 1)]),
        ("items_payloads", .int 5)])).2.2
     [("scores", .obj [("a", .num 1)]), ("items_payloads", .int 5)]
     [("a", .num 1)] rfl rfl
     (Or.inr (Or.inr ⟨.int 5, rfl, by intro ip h; cases h⟩))⟩

theorem pySetEq_symm {xs ys : List String} (h : pySetEq xs ys = true) :
    pySetEq ys xs = true :=
  (pySetEq_iff_mem ys xs).mpr (fun a => ((pySetEq_iff_mem xs ys).mp h a).symm)

theorem mem_exportScores {scores : List (String × ℚ)} {idsAll : List String}
    {kv : String × ℚ} (h : kv ∈ exportScores scores idsAll) : kv ∈ scores := by
  unfold exportScores at h
  exact (List.mem_filter.mp (mem_pyDictOfPairs h)).1

theorem normalize_export_shape (M L P : List (String × JValue)) (hP : P.length > 0) :
    _normalize_raw (.obj [("scores", .obj M), ("meta", .obj L), ("items_payloads", .obj P)])
      = ⟨P.map Prod.fst, prefilledOf M, P⟩ := by
  show exportCaseAssemble (prefilledOf M) (some (.obj P)) = _
  unfold exportCaseAssemble
  dsimp only
  rw [if_pos hP]

theorem prefilledOf_export (scores : List (String × ℚ)) (idsAll : List String)
    (hval : ∀ kv ∈ scores, scoreValid kv.2 = true) :
    prefilledOf ((exportScores scores idsAll).map (fun kv => (kv.1, JValue.num kv.2)))
      = exportScores scores idsAll := by
  unfold prefilledOf
  have hfil : ((exportScores scores idsAll).map
        (fun kv => (kv.1, JValue.num kv.2))).filter (fun kv => _is_valid_score kv.2)
      = (exportScores scores idsAll).map (fun kv => (kv.1, JValue.num kv.2)) := by
    rw [List.filter_eq_self]
    intro p hp
    rcases List.mem_map.mp hp with ⟨kv, hkv, hpe⟩
    have hkvval : scoreValid kv.2 = true := hval kv (mem_exportScores hkv)
    rw [← hpe]
    show _is_valid_score (JValue.num kv.2) = true
    unfold _is_valid_score pyFloat
    exact hkvval
  rw [hfil, List.map_map]
  have hpt : ∀ kv ∈ exportScores scores idsAll,
      ((fun kv => (kv.1, (pyFloat kv.2).getD 0)) ∘
        (fun (kv : String × ℚ) => (kv.1, JValue.num kv.2))) kv = kv := by
    intro kv _
    simp [pyFloat]
  rw [List.map_congr_left hpt]
  have hid : (exportScores scores idsAll).map (fun kv => kv) = exportScores scores idsAll := by
    simp
  rw [hid]
  exact pyDictOfPairs_eq_self (nodupkeys_pyDictOfPairs _)

/-- C1 (amended): for every session whose recorded judgments are all valid
scores and whose id list and order are duplicate-free, feeding the export
document back through the Item Normalizer and order restoration
reconstructs the payload map verbatim, an id list with the identical id
set, and the identical presentation order, and pre-fills exactly the
exported judgments — the recorded judgments restricted to current ids. -/
theorem c1_roundtrip (scores : List (String × ℚ)) (ids bo : List String)
    (payloads : List (String × JValue)) (t : String)
    (hval : ∀ kv ∈ scores, scoreValid kv.2 = true)
    (hkeys : pySetEq (payloads.map Prod.fst) ids = true)
    (hknd : (payloads.map Prod.fst).Nodup)
    (hbo : pySetEq bo ids = true)
    (hbond : bo.Nodup)
    (hne : ids ≠ []) :
    (_normalize_raw (exportDoc scores ids bo payloads t)).payloads = payloads ∧
    (_normalize_raw (exportDoc scores ids bo payloads t)).ids = payloads.map Prod.fst ∧
    pySetEq (_normalize_raw (exportDoc scores ids bo payloads t)).ids ids = true ∧
    _restore_order_from_meta (exportDoc scores ids bo payloads t)
        ((_normalize_raw (exportDoc scores ids bo payloads t)).ids) = some bo ∧
    (_normalize_raw (exportDoc scores ids bo payloads t)).prefilled
        = exportScores scores ids := by
  have hpne : payloads.length > 0 := by
    cases hps : payloads with
    | nil =>
        exfalso
        cases hids : ids with
        | nil => exact hne hids
        | cons i rest =>
            have hmem : i ∈ payloads.map Prod.fst := by
              rw [pySetEq_iff_mem] at hkeys
              exact (hkeys i).mpr (by rw [hids]; exact List.mem_cons_self _ _)
            rw [hps] at hmem
            simp at hmem
    | cons p rest => simp
  have hnorm : _normalize_raw (exportDoc scores ids bo payloads t)
      = ⟨payloads.map Prod.fst,
         prefilledOf ((exportScores scores ids).map (fun kv => (kv.1, JValue.num kv.2))),
         payloads⟩ :=
    normalize_export_shape _ _ _ hpne
  have hsets : pySetEq bo (payloads.map Prod.fst) = true :=
    pySetEq_trans hbo (pySetEq_symm hkeys)
  have hres : _restore_order_from_meta (exportDoc scores ids bo payloads t)
      (payloads.map Prod.fst) = some bo := by
    rw [restore_some_iff]
    refine ⟨rfl, hsets, ?_⟩
    exact length_eq_of_pySetEq_nodup hsets hbond hknd
  refine ⟨by rw [hnorm], by rw [hnorm], ?_, ?_, ?_⟩
  · rw [hnorm]
    exact hkeys
  · rw [hnorm]
    exact hres
  · rw [hnorm]
    exact prefilledOf_export scores ids hval

/-- C1 (counterexample): the reachable session loaded from the duplicate
scalar list `["a","a"]` has valid judgments only, yet re-normalizing its
export yields the single id `["a"]`, order restoration rejects the stored
order `["a","a"]` (length 2 against 1), and the replacement shuffle
`["a"]` differs from the original presentation order. -/
theorem c1_counterexample :
    Reachable stateAA ∧
    stateAA.scores.all (fun kv => scoreValid kv.2) = true ∧
    sessionIds stateAA = ["a", "a"] ∧
    stateAA.baseOrder = some ["a", "a"] ∧
    (_normalize_raw (exportDoc stateAA.scores (sessionIds stateAA) ["a", "a"]
        (normOf stateAA).payloads "t")).ids = ["a"] ∧
    _restore_order_from_meta (exportDoc stateAA.scores (sessionIds stateAA) ["a", "a"]
        (normOf stateAA).payloads "t") ["a"] = Option.none ∧
    _make_base_order (exportDoc stateAA.scores (sessionIds stateAA) ["a", "a"]
        (normOf stateAA).payloads "t") ["a"] idShuffle = ["a"] ∧
    (["a"] : List String) ≠ ["a", "a"] :=
  ⟨Reachable.next _ _ _ _ Reachable.init (fun l => List.Perm.refl l) trivial,
   by decide, by decide, by decide, by decide, by decide, by decide, by decide⟩

/-- C1 (witness): a duplicate-free session round-trips exactly. -/
theorem c1_witness :
    (∀ kv ∈ [("a", (1 : ℚ))], scoreValid kv.2 = true) ∧
    (_normalize_raw (exportDoc [("a", 1)] ["a", "b"] ["b", "a"]
        [("a", .str "x"), ("b", .str "y")] "t")).payloads
      = [("a", .str "x"), ("b", .str "y")] ∧
    _restore_order_from_meta (exportDoc [("a", 1)] ["a", "b"] ["b", "a"]
        [("a", .str "x"), ("b", .str "y")] "t")
        ((_normalize_raw (exportDoc [("a", 1)] ["a", "b"] ["b", "a"]
            [("a", .str "x"), ("b", .str "y")] "t")).ids) = some ["b", "a"] ∧
    (_normalize_raw (exportDoc [("a", 1)] ["a", "b"] ["b", "a"]
        [("a", .str "x"), ("b", .str "y")] "t")).prefilled
      = exportScores [("a", 1)] ["a", "b"] :=
  have T := c1_roundtrip [("a", 1)] ["a", "b"] ["b", "a"]
      [("a", .str "x"), ("b", .str "y")] "t" (by decide) (by decide) (by decide)
      (by decide) (by decide) (by decide)
  ⟨by decide, T.1, T.2.2.2.1, T.2.2.2.2⟩


theorem smRowOf_ok (sc pl : List (String × JValue)) (x : JValue)
    (hplobj : ∀ kv ∈ pl, ∃ pf, kv.2 = .obj pf)
    (hx : smKeyHashable x = true) :
    ∃ row, smRowOf (.obj sc) (.obj pl) x = .ok row ∧ row.item = x ∧
      row.score = smScoreOf sc x := by
  cases x with
  | str s2 =>
      cases hpo : pyLookup pl s2 with
      | none =>
          refine ⟨⟨.str s2, .str "", .str "", pyLookup sc s2⟩, ?_, rfl, rfl⟩
          unfold smRowOf
          simp only [pyGetDJ, hpo]
          rfl
      | some p =>
          rcases hplobj (s2, p) (pyLookup_mem hpo) with ⟨pf, hpf⟩
          dsimp only at hpf
          subst hpf
          refine ⟨⟨.str s2, (pyLookup pf "id").getD (.str ""),
              (pyLookup pf "content").getD (.str ""), pyLookup sc s2⟩, ?_, rfl, rfl⟩
          unfold smRowOf
          simp only [pyGetDJ, hpo]
          rfl
  | null => exact ⟨⟨.null, .str "", .str "", Option.none⟩, rfl, rfl, rfl⟩
  | bool b => exact ⟨⟨.bool b, .str "", .str "", Option.none⟩, rfl, rfl, rfl⟩
  | int n => exact ⟨⟨.int n, .str "", .str "", Option.none⟩, rfl, rfl, rfl⟩
  | num q => exact ⟨⟨.num q, .str "", .str "", Option.none⟩, rfl, rfl, rfl⟩
  | arr l => cases hx
  | obj l => cases hx

theorem smRows_ok (scores payloads : JValue) (P : JValue → SmRow → Prop) :
    ∀ items : List JValue,
      (∀ x ∈ items, ∃ row, smRowOf scores payloads x = .ok row ∧ P x row) →
      ∃ rows, smRows scores payloads items = .ok rows ∧
        rows.length = items.length ∧
        (∀ i x, items.get? i = some x →
          ∃ row, rows.get? i = some row ∧ P x row) := by
  intro items
  induction items with
  | nil => exact fun _ => ⟨[], rfl, rfl, fun i x h => by cases h⟩
  | cons x rest ih =>
      intro h
      rcases h x (List.mem_cons_self _ _) with ⟨row, hrow, hP⟩
      rcases ih (fun y hy => h y (List.mem_cons_of_mem _ hy)) with
        ⟨rows, hrows, hlen, hidx⟩
      refine ⟨row :: rows, ?_, by simp [hlen], ?_⟩
      · unfold smRows
        rw [hrow, hrows]
        rfl
      · intro i y hy
        cases i with
        | zero =>
            have he : x = y := by simpa using hy
            subst he
            exact ⟨row, rfl, hP⟩
        | succ i2 =>
            exact hidx i2 y (by simpa using hy)

/-- C10 (amended): for an export-shaped input whose `meta.order` is a list
of hashable keys and whose present payload values are mappings, `run`
writes exactly one row per element of `meta.order` in that order, with an
empty (`None`) score field for keys lacking a score; any id present in
`scores` but absent from `meta.order` yields no row at all; and only when
`meta.order` is not a list do the rows come from the score keys instead. -/
theorem c10_rows :
    (∀ (df sc pl mf : List (String × JValue)) (os : List JValue),
      pyLookup df "scores" = some (.obj sc) →
      pyLookup df "items_payloads" = some (.obj pl) →
      pyLookup df "meta" = some (.obj mf) →
      pyLookup mf "order" = some (.arr os) →
      (∀ kv ∈ pl, ∃ pf, kv.2 = .obj pf) →
      (∀ x ∈ os, smKeyHashable x = true) →
      ∃ rows, smRun (.obj df) = .ok rows ∧
        rows.length = os.length ∧
        (∀ i x, os.get? i = some x → ∃ row, rows.get? i = some row ∧
          row.item = x ∧ row.score = smScoreOf sc x) ∧
        (∀ k, JValue.str k ∉ os →
          ∀ i row, rows.get? i = some row → row.item ≠ .str k)) ∧
    (∀ (df sc pl mf : List (String × JValue)) (w : JValue),
      pyLookup df "scores" = some (.obj sc) →
      pyLookup df "items_payloads" = some (.obj pl) →
      pyLookup df "meta" = some (.obj mf) →
      pyLookup mf "order" = some w →
      (∀ xs, w ≠ .arr xs) →
      (∀ kv ∈ pl, ∃ pf, kv.2 = .obj pf) →
      ∃ rows, smRun (.obj df) = .ok rows ∧
        rows.length = sc.length ∧
        (∀ i kv, sc.get? i = some kv → ∃ row, rows.get? i = some row ∧
          row.item = .str kv.1 ∧ row.score = pyLookup sc kv.1)) := by
  constructor
  · intro df sc pl mf os hsc hpl hmf hord hplobj hos
    rcases smRows_ok (.obj sc) (.obj pl)
        (fun x row => row.item = x ∧ row.score = smScoreOf sc x)
        os (fun x hx => smRowOf_ok sc pl x hplobj (hos x hx)) with
      ⟨rows, hrows, hlen, hidx⟩
    have hrun : smRun (.obj df) = .ok rows := by
      unfold smRun
      rw [show pyGetD (.obj df) "scores" (.obj []) = .ok (.obj sc) by
            simp [pyGetD, hsc]]
      dsimp only
      rw [show pyGetD (.obj df) "items_payloads" (.obj []) = .ok (.obj pl) by
            simp [pyGetD, hpl]]
      dsimp only
      rw [show pyGetD (.obj df) "meta" (.obj []) = .ok (.obj mf) by
            simp [pyGetD, hmf]]
      dsimp only
      rw [show pyGetD (.obj mf) "order" .null = .ok (.arr os) by
            simp [pyGetD, hord]]
      dsimp only
      exact hrows
    refine ⟨rows, hrun, hlen, hidx, ?_⟩
    intro k hnotin i row hrowi heq
    cases hosi : os.get? i with
    | none =>
        rw [List.get?_eq_none] at hosi
        have : rows.get? i = Option.none := by
          rw [List.get?_eq_none, hlen]
          exact hosi
        rw [this] at hrowi
        cases hrowi
    | some x =>
        rcases hidx i x hosi with ⟨row2, hrow2, hitem, _⟩
        have hre : row = row2 := by
          have := hrowi.symm.trans hrow2
          simpa using this
        subst hre
        rw [heq] at hitem
        exact hnotin (hitem ▸ List.get?_mem hosi)
  · intro df sc pl mf w hsc hpl hmf hord hnarr hplobj
    have hitems : smItems (.obj sc) w = .ok (sc.map (fun kv => JValue.str kv.1)) := by
      unfold smItems
      cases w
      case arr xs => exact absurd rfl (hnarr xs)
      all_goals rfl
    rcases smRows_ok (.obj sc) (.obj pl)
        (fun x row => row.item = x ∧ row.score = smScoreOf sc x)
        (sc.map (fun kv => JValue.str kv.1))
        (fun x hx => by
          rcases List.mem_map.mp hx with ⟨kv, _, hkv⟩
          exact smRowOf_ok sc pl x hplobj (by rw [← hkv]; rfl)) with
      ⟨rows, hrows, hlen, hidx⟩
    have hrun : smRun (.obj df) = .ok rows := by
      unfold smRun
      rw [show pyGetD (.obj df) "scores" (.obj []) = .ok (.obj sc) by
            simp [pyGetD, hsc]]
      dsimp only
      rw [show pyGetD (.obj df) "items_payloads" (.obj []) = .ok (.obj pl) by
            simp [pyGetD, hpl]]
      dsimp only
      rw [show pyGetD (.obj df) "meta" (.obj []) = .ok (.obj mf) by
            simp [pyGetD, hmf]]
      dsimp only
      rw [show pyGetD (.obj mf) "order" .null = .ok w by
            simp [pyGetD, hord]]
      dsimp only
      rw [hitems]
      exact hrows
    refine ⟨rows, hrun, by simpa using hlen, ?_⟩
    intro i kv hkv
    have hmi : (sc.map (fun kv => JValue.str kv.1)).get? i = some (.str kv.1) := by
      rw [List.get?_map, hkv]
      rfl
    rcases hidx i (.str kv.1) hmi with ⟨row, hrow, hitem, hscore⟩
    exact ⟨row, hrow, hitem, hscore⟩

/-- C10 (counterexample): an export-shaped input with a list `meta.order`
but a scalar payload value crashes `run` with an `AttributeError`
(`payload.get` on a string), producing no rows at all instead of one row
per order element. -/
theorem c10_counterexample :
    metaOrderField (.obj [("scores", .obj []),
        ("items_payloads", .obj [("a", .str "a")]),
        ("meta", .obj [("order", .arr [.str "a"])])]) = some (.arr [.str "a"]) ∧
    smRun (.obj [("scores", .obj []),
        ("items_payloads", .obj [("a", .str "a")]),
        ("meta", .obj [("order", .arr [.str "a"])])])
      = .error "AttributeError: get" :=
  ⟨rfl, rfl⟩

/-- C10 (witness): a two-element order with one scored id, one missing
score, and an orphan score key produces exactly two rows in order. -/
theorem c10_witness :
    pyLookup [("scores", JValue.obj [("a", .num 1), ("orphan", .num 1)]),
        ("items_payloads", JValue.obj [("a", .obj [("id", .str "i1")])]),
        ("meta", JValue.obj [("order", .arr [.str "a", .str "missing"])])]
      "scores" = some (.obj [("a", .num 1), ("orphan", .num 1)]) ∧
    (∃ rows, smRun (.obj [("scores", JValue.obj [("a", .num 1), ("orphan", .num 1)]),
        ("items_payloads", JValue.obj [("a", .obj [("id", .str "i1")])]),
        ("meta", JValue.obj [("order", .arr [.str "a", .str "missing"])])])
      = .ok rows ∧
      rows.length = ([JValue.str "a", JValue.str "missing"] : List JValue).length ∧
      (∀ i x, ([JValue.str "a", JValue.str "missing"] : List JValue).get? i = some x →
        ∃ row, rows.get? i = some row ∧ row.item = x ∧
          row.score = smScoreOf [("a", JValue.num 1), ("orphan", JValue.num 1)] x) ∧
      (∀ k, JValue.str k ∉ ([JValue.str "a", JValue.str "missing"] : List JValue) →
        ∀ i row, rows.get? i = some row → row.item ≠ .str k)) :=
  ⟨rfl,
   c10_rows.1 _ [("a", .num 1), ("orphan", .num 1)] [("a", .obj [("id", .str "i1")])]
     [("order", .arr [.str "a", .str "missing"])] [.str "a", .str "missing"]
     rfl rfl rfl rfl
     (by
       intro kv hkv
       have he : kv = ("a", JValue.obj [("id", JValue.str "i1")]) := by
         simpa using hkv
       exact ⟨[("id", .str "i1")], by rw [he]⟩)
     (by
       intro x hx
       rcases List.mem_cons.mp hx with rfl | hx2
       · rfl
       · rcases List.mem_cons.mp hx2 with rfl | hx3
         · rfl
         · cases hx3)⟩
